import Mathlib

/-!
# Verification of the transactional reference store (refs.c / refs-be-lmdb.c)

This file is a shallow embedding, in Lean 4, of the parts of the reference
module of the repository that the specification claims talk about:

* the refname validator (`check_refname_format` and friends, refs.c:78-199);
* ref classification and the pseudoref dispatch (refs.c:564-689, 957-997);
* the LMDB backend's ordered key-value store operations and the functions
  built on them: symbolic-ref resolution (`parse_ref_data`), reflog writing
  (`log_ref_write`), reflog existence (`lmdb_reflog_exists`), transactional
  updates (`lmdb_transaction_update`) and ref renaming (`lmdb_rename_ref`);
* the backend-agnostic transaction engine (`dereference_symrefs`,
  `move_abnormal_ref_updates`, `do_ref_transaction_commit`, refs.c:1416-1574).

Machine integers are modelled as `Nat`; byte strings as `List Nat` with each
byte in `0..255`; C strings are NUL-free byte lists, and the NUL terminator is
made explicit where the code stores it (LMDB keys and values).  The embedded
LMDB database is a key-sorted association list; an open LMDB write transaction
is modelled by a private copy of the store which becomes visible only at
`mdb_txn_commit` (this is exactly the single-writer MVCC contract the backend
relies on, per the comment at the top of refs-be-lmdb.c).
-/

set_option maxRecDepth 4000

namespace GitRefs

/-- Bytes of an ASCII string literal. -/
def bytes (s : String) : List Nat :=
  s.data.map Char.toNat

/-- C `isspace` for a byte: space, \t, \n, \v, \f, \r. -/
def isspaceB (c : Nat) : Bool :=
  c == 32 || c == 9 || c == 10 || c == 11 || c == 12 || c == 13

/-- The bytes of a C string living in a buffer: truncate at the first NUL
(and reduce each machine byte mod 256, mirroring `*cp & 255`). -/
def cbytes (r : List Nat) : List Nat :=
  (r.map (· % 256)).takeWhile (· ≠ 0)

/-! ## Flag constants

`REF_NO_REFLOG` (0x8000) is defined in refs-be-lmdb.c:751.  The remaining
constants come from the headers refs.h / refs-internal.h, which are not part
of the sources; the code only ever tests these as independent bits, so any
assignment of distinct bits is faithful. -/

def REFNAME_ALLOW_ONELEVEL : Nat := 1
def REFNAME_REFSPEC_PATTERN : Nat := 2

def RESOLVE_REF_READING : Nat := 1
def RESOLVE_REF_NO_RECURSE : Nat := 2
def RESOLVE_REF_ALLOW_BAD_NAME : Nat := 4

def REF_ISSYMREF : Nat := 1
def REF_ISBROKEN : Nat := 2
def REF_BAD_NAME : Nat := 4

def REF_NODEREF : Nat := 1
def REF_HAVE_NEW : Nat := 2
def REF_HAVE_OLD : Nat := 4
def REF_DELETING : Nat := 8
def REF_LOG_ONLY : Nat := 16
def REF_IS_NOT_HEAD : Nat := 32
def REF_NO_REFLOG : Nat := 32768

def OBJ_COMMIT : Nat := 1

def TRANSACTION_NAME_CONFLICT : Int := -1
def TRANSACTION_GENERIC_ERROR : Int := -2

/-- Clear a bit mask from a flags word (C `flags &= ~mask`). -/
def clearFlag (flags mask : Nat) : Nat :=
  flags - (flags &&& mask)

/-! ## NameValidator (refs.c:78-199) -/

/-- The character disposition table `refname_disposition` (refs.c:78-87).
0: acceptable; 1: end of component (NUL or '/'); 2: '.'; 3: opening brace;
4: forbidden; 5: '*'. -/
def refname_disposition_table : List Nat :=
  [1, 4, 4, 4, 4, 4, 4, 4, 4, 4, 4, 4, 4, 4, 4, 4,
   4, 4, 4, 4, 4, 4, 4, 4, 4, 4, 4, 4, 4, 4, 4, 4,
   4, 0, 0, 0, 0, 0, 0, 0, 0, 0, 5, 0, 0, 0, 2, 1,
   0, 0, 0, 0, 0, 0, 0, 0, 0, 0, 4, 0, 0, 0, 0, 4,
   0, 0, 0, 0, 0, 0, 0, 0, 0, 0, 0, 0, 0, 0, 0, 0,
   0, 0, 0, 0, 0, 0, 0, 0, 0, 0, 0, 4, 4, 0, 4, 0,
   0, 0, 0, 0, 0, 0, 0, 0, 0, 0, 0, 0, 0, 0, 0, 0,
   0, 0, 0, 0, 0, 0, 0, 0, 0, 0, 0, 3, 0, 0, 4, 4]

def refname_disposition (c : Nat) : Nat :=
  refname_disposition_table.getD c 0

/-- The character loop of `check_refname_component` (refs.c:109-137).
`pattern` is the `REFNAME_REFSPEC_PATTERN` bit of the threaded `*flags`
word (the only bit the C loop ever writes); `last` is the previous byte.
Returns the updated pattern bit, or `none` when the component is rejected.
Disposition 1 (NUL or '/') ends the component; the caller splits components
at exactly those bytes, so that case is unreachable here. -/
def component_scan (pattern : Bool) (last : Nat) : List Nat → Option Bool
  | [] => some pattern
  | c :: cs =>
    let d := refname_disposition c
    if d = 1 then some pattern
    else if d = 2 then
      if last = 46 then none else component_scan pattern c cs
    else if d = 3 then
      if last = 64 then none else component_scan pattern c cs
    else if d = 4 then none
    else if d = 5 then
      if pattern then component_scan false c cs else none
    else component_scan pattern c cs

def lock_suffix : List Nat := bytes ".lock"

/-- `check_refname_component` (refs.c:104-147) on one already-split component.
The C function returns -1 for a bad component and 0 for an empty one, and
`check_refname_format` rejects both (`component_len <= 0`), so both are
folded into `none`; a good component yields the updated pattern bit. -/
def check_refname_component (comp : List Nat) (pattern : Bool) : Option Bool :=
  match component_scan pattern 0 comp with
  | none => none
  | some p =>
    if comp.length = 0 then none
    else if comp.head? = some 46 then none
    else if lock_suffix.isSuffixOf comp then none
    else some p

/-- Split a NUL-free byte string at '/' (byte 47).  The component loop of
`check_refname_format` stops a component exactly at disposition-1 bytes,
i.e. at '/' or at the terminating NUL, so scanning components one by one is
the same as splitting up front. -/
def split_comp : List Nat → List (List Nat)
  | [] => [[]]
  | c :: cs =>
    if c = 47 then [] :: split_comp cs
    else
      match split_comp cs with
      | [] => [[c]]
      | p :: ps => (c :: p) :: ps

/-- The component loop of `check_refname_format` (refs.c:157-168) plus the
trailing checks (refs.c:170-174), with the component count accumulated. -/
def format_go (onelevel : Bool) : List (List Nat) → Bool → Nat → Int
  | [], _, _ => 0
  | comp :: rest, pattern, count =>
    match check_refname_component comp pattern with
    | none => -1
    | some p =>
      match rest with
      | [] =>
        if comp.getLast? = some 46 then -1
        else if onelevel = false ∧ count + 1 < 2 then -1
        else 0
      | _ :: _ => format_go onelevel rest p (count + 1)

/-- `check_refname_format` (refs.c:149-175).  0 = accepted, -1 = rejected. -/
def check_refname_format (refname : List Nat) (flags : Nat) : Int :=
  let r := cbytes refname
  if r = [64] then -1
  else
    format_go ((flags &&& REFNAME_ALLOW_ONELEVEL) != 0) (split_comp r)
      ((flags &&& REFNAME_REFSPEC_PATTERN) != 0) 0

/-! ## The refname grammar as the specification states it (spec section 3)

These definitions follow the words of the spec/claim, to be compared with
`check_refname_format` above. -/

/-- A byte the spec forbids inside a component: ASCII control characters
(0-31 and DEL), space, tab, ':', '?', '[', '\', '^', '~'. -/
def bad_byte (c : Nat) : Bool :=
  decide (c < 32) || c == 127 || c == 32 || c == 9 || c == 58 || c == 63 ||
    c == 91 || c == 92 || c == 94 || c == 126

def dot_dot : List Nat := [46, 46]

def at_brace : List Nat := [64, 123]

/-- `p` occurs as a contiguous subsequence of `l`. -/
def sub_in (p : List Nat) : List Nat → Bool
  | [] => p.isEmpty
  | c :: cs => p.isPrefixOf (c :: cs) || sub_in p cs

/-- Spec component rules: non-empty; does not start with '.'; does not
contain '..', '@' followed by an opening brace, or a forbidden byte; does
not end with '.lock'. -/
def spec_component_ok (comp : List Nat) : Bool :=
  !comp.isEmpty && !(comp.head? == some 46) &&
  !sub_in dot_dot comp && !sub_in at_brace comp &&
  comp.all (fun c => !bad_byte c) && !lock_suffix.isSuffixOf comp

def star_count (r : List Nat) : Nat := r.count 42

/-- The claim's reading of the section-3 grammar: every component obeys the
component rules, the whole name is not the single character '@', there are
at least two components unless `ALLOW_ONELEVEL`, and there is no '*' unless
`REFSPEC_PATTERN` is set, in which case exactly one '*' is accepted. -/
def spec_refname_ok (refname : List Nat) (flags : Nat) : Bool :=
  let comps := split_comp refname
  comps.all spec_component_ok && !(refname == [64]) &&
  (decide (2 ≤ comps.length) || (flags &&& REFNAME_ALLOW_ONELEVEL) != 0) &&
  (star_count refname == 0 ||
    ((flags &&& REFNAME_REFSPEC_PATTERN) != 0 && star_count refname == 1))

/-- The grammar amended with the one rule the code enforces but the claim
omits: the whole name must not end with '.' (refs.c:170-171). -/
def spec_refname_ok_amended (refname : List Nat) (flags : Nat) : Bool :=
  spec_refname_ok refname flags && !(refname.getLast? == some 46)

/-! ## Ref classification and the pseudoref dispatch (refs.c:564-689,957-997) -/

/-- `is_per_worktree_ref` (refs.c:564-568). -/
def is_per_worktree_ref (refname : List Nat) : Bool :=
  refname == bytes "HEAD" || (bytes "refs/bisect/").isPrefixOf refname

/-- `is_pseudoref_syntax` (refs.c:570-580): every byte is an uppercase
letter, '-' or '_'.  (The loop body never runs for the empty name, so the
empty name is accepted.) -/
def is_pseudoref_syntax (refname : List Nat) : Bool :=
  refname.all (fun c => (65 ≤ c && c ≤ 90) || c == 45 || c == 95)

inductive RefType where
  | perWorktree
  | pseudoref
  | normal
deriving DecidableEq, Repr

/-- `ref_type` (refs.c:582-589). -/
def ref_type (refname : List Nat) : RefType :=
  if is_per_worktree_ref refname then .perWorktree
  else if is_pseudoref_syntax refname then .pseudoref
  else .normal

/-- The two code paths `update_ref` (refs.c:957-997) can take: the pseudoref
loose-file write (`write_pseudoref`, with no transaction machinery and no
`check_refname_format` call anywhere on the path), or the transaction
engine (`ref_transaction_begin`/`update`/`commit`). -/
inductive UpdateRoute where
  | pseudorefFile
  | transactionEngine
deriving DecidableEq, Repr

/-- The dispatch at the top of `update_ref` (refs.c:965-976). -/
def update_ref_route (refname : List Nat) : UpdateRoute :=
  if ref_type refname = .pseudoref then .pseudorefFile else .transactionEngine

/-- The dispatch at the top of `delete_ref` (refs.c:673-674). -/
def delete_ref_route (refname : List Nat) : UpdateRoute :=
  if ref_type refname = .pseudoref then .pseudorefFile else .transactionEngine

/-- Adjacent pair `a, b` occurs somewhere in the list. -/

def adj2 (a b : Nat) : List Nat → Bool
  | x :: y :: t => (a == x && b == y) || adj2 a b (y :: t)
  | _ => false

/-- What the character loop computes, stated without the left-to-right
state threading: no forbidden byte, no adjacent "..", no adjacent "@"-brace
(both including the byte just before the component), and at most one '*'
(none when the pattern flag is off); a consumed '*' clears the pattern flag. -/

def scan_spec (pattern : Bool) (last : Nat) (comp : List Nat) : Option Bool :=
  if comp.all (fun c => !bad_byte c) && !adj2 46 46 (last :: comp) &&
      !adj2 64 123 (last :: comp) &&
      (if pattern then decide (comp.count 42 ≤ 1) else comp.count 42 == 0)
  then some (pattern && comp.count 42 == 0)
  else none

def tot_stars (comps : List (List Nat)) : Nat :=
  (comps.map (fun c => c.count 42)).sum


/-! ## refname_is_safe (refs.c:177-199) -/

/-- Modelled from the spec: `normalize_path_copy` (path.c, absent from the
sources).  Per spec section 3, a "refs/" name is safe iff its tail
normalizes without escaping "refs/"; we track the component depth, with
".." popping one level and failing below the root. -/
def normalize_escapes (tail : List Nat) : Bool :=
  ((split_comp tail).foldl (fun acc comp =>
    match acc with
    | none => none
    | some d =>
      if comp = [46, 46] then (if d = 0 then none else some (d - 1))
      else if comp = [46] ∨ comp = [] then some d
      else some (d + 1)) (some (0 : Nat))).isNone

/-- `refname_is_safe` (refs.c:177-199): names under "refs/" are safe when
their tail does not escape; other names must be all uppercase or '_'. -/
def refname_is_safe (refname : List Nat) : Bool :=
  if (bytes "refs/").isPrefixOf refname then
    !normalize_escapes (refname.drop 5)
  else
    refname.all (fun c => (65 ≤ c && c ≤ 90) || c == 95)

/-! ## Object ids and hex -/

def nullSha1 : List Nat := List.replicate 20 0

def is_null_sha1 (s : List Nat) : Bool := s == nullSha1

/-- Modelled from the spec: hex digit value as used by `get_sha1_hex`
(hex.c is absent from the sources; spec section 4.2: "the leading 40 bytes
must be valid hex"). -/
def hexval (c : Nat) : Option Nat :=
  if 48 ≤ c ∧ c ≤ 57 then some (c - 48)
  else if 97 ≤ c ∧ c ≤ 102 then some (c - 87)
  else if 65 ≤ c ∧ c ≤ 70 then some (c - 55)
  else none

/-- Modelled from the spec: `get_sha1_hex` reads `n` byte pairs of hex
digits, failing on any non-hex byte (a terminating NUL is not hex, so a
short buffer fails). -/
def get_sha1_hex : Nat → List Nat → Option (List Nat)
  | 0, _ => some []
  | n + 1, l =>
    match l with
    | c1 :: c2 :: rest =>
      match hexval c1, hexval c2 with
      | some h1, some h2 =>
        (get_sha1_hex n rest).map (fun tl => (h1 * 16 + h2) :: tl)
      | _, _ => none
    | _ => none

def hexchar (n : Nat) : Nat := if n < 10 then 48 + n else 87 + n

/-- `sha1_to_hex`: the 40 lowercase hex digits of a 20-byte id (without the
terminating NUL; callers append it where the code stores it). -/
def sha1_to_hex (id : List Nat) : List Nat :=
  (id.map (fun b => [hexchar (b / 16), hexchar (b % 16)])).flatten

/-! ## Symbolic-ref resolution in the LMDB backend (refs-be-lmdb.c:271-344)

The database is modelled as a lookup function from keys (byte lists
including the terminating NUL, as `mv_size = strlen + 1` stores them) to
stored values (also NUL-terminated). -/

def MAXDEPTH : Nat := 5

/-- `parse_ref_data` (refs-be-lmdb.c:273-344).  `depth` is the loop's
down-counter (`MAXDEPTH` initially; the C checks `--depth < 0` at the top
of every iteration, so `depth = 0` at an iteration start means failure).
`ref_data` is a raw stored value including its terminating NUL.  The C
returns the final refname and fills the `sha1` and `flags` out-parameters;
here the pair (name, sha1) is returned (NULL becomes `none`) together with
the flags word. -/
def parse_ref_data (db : List Nat → Option (List Nat)) :
    Nat → List Nat → List Nat → Nat → Nat → Bool →
    (Option (List Nat × List Nat) × Nat)
  | 0, _, _, _, flags, _ => (none, flags)
  | depth + 1, refname, ref_data, resolve_flags, flags, bad_name =>
    if ¬ (bytes "ref:").isPrefixOf ref_data then
      match get_sha1_hex 20 ref_data with
      | none => (none, flags ||| REF_ISBROKEN)
      | some id =>
        if ref_data.getD 40 0 ≠ 0 ∧ isspaceB (ref_data.getD 40 0) = false then
          (none, flags ||| REF_ISBROKEN)
        else if bad_name then
          (some (refname, nullSha1), flags ||| REF_ISBROKEN)
        else if is_null_sha1 id then
          (some (refname, id), flags ||| REF_ISBROKEN)
        else
          (some (refname, id), flags)
    else
      let flags1 := flags ||| REF_ISSYMREF
      let buf := (ref_data.drop 4).dropWhile (fun c => isspaceB c)
      let target := buf.takeWhile (fun c => c != 0)
      if resolve_flags &&& RESOLVE_REF_NO_RECURSE ≠ 0 then
        (some (target, nullSha1), flags1)
      else
        let fmt_bad := check_refname_format target REFNAME_ALLOW_ONELEVEL ≠ 0
        let flags2 := if fmt_bad then flags1 ||| REF_ISBROKEN else flags1
        if fmt_bad ∧ (resolve_flags &&& RESOLVE_REF_ALLOW_BAD_NAME = 0 ∨
            refname_is_safe target = false) then
          (none, flags2)
        else
          let bad2 := bad_name || decide fmt_bad
          match db (target ++ [0]) with
          | none =>
            let flags3 := if bad2 then flags2 ||| REF_ISBROKEN else flags2
            if resolve_flags &&& RESOLVE_REF_READING ≠ 0 then (none, flags3)
            else (some (target, nullSha1), flags3)
          | some v => parse_ref_data db depth target v resolve_flags flags2 bad2

/-- The stored value of a symbolic ref: `"ref: " + target + NUL`. -/
def symref_val (target : List Nat) : List Nat :=
  bytes "ref: " ++ target ++ [0]

/-- A well-formed ref name for chain statements: accepted by the validator,
with no NUL and no whitespace bytes. -/
def good_name (n : List Nat) : Bool :=
  (check_refname_format n REFNAME_ALLOW_ONELEVEL == 0) &&
    n.all (fun c => decide (0 < c) && !isspaceB c)

/-- A stored value holding a direct, non-null id. -/
def direct_value (v id : List Nat) : Bool :=
  !(bytes "ref:").isPrefixOf v && (get_sha1_hex 20 v == some id) &&
    (v.getD 40 0 == 0 || isspaceB (v.getD 40 0)) && !(id == nullSha1)

/-- The names form a symbolic-ref chain in `db`: each one stores
`"ref: " + next`, and the last stores the direct value `idv`. -/
def chain_links (db : List Nat → Option (List Nat)) (idv : List Nat) :
    List (List Nat) → Bool
  | [] => true
  | [n] => db (n ++ [0]) == some idv
  | n :: m :: rest =>
    (db (n ++ [0]) == some (symref_val m)) && chain_links db idv (m :: rest)

/-- The raw value stored for the head of a chain. -/
def chain_head_value (idv : List Nat) : List (List Nat) → List Nat
  | [] => idv
  | n1 :: _ => symref_val n1

/-- A concrete store with a chain of five symbolic hops
a -> b -> c -> d -> e -> f, where f holds a direct id. -/
def five_hop_store : List (List Nat × List Nat) :=
  [(bytes "a" ++ [0], symref_val (bytes "b")),
   (bytes "b" ++ [0], symref_val (bytes "c")),
   (bytes "c" ++ [0], symref_val (bytes "d")),
   (bytes "d" ++ [0], symref_val (bytes "e")),
   (bytes "e" ++ [0], symref_val (bytes "f")),
   (bytes "f" ++ [0], sha1_to_hex (List.replicate 20 17) ++ [0])]

def five_hop_db (k : List Nat) : Option (List Nat) :=
  (five_hop_store.find? (fun e => e.1 == k)).map (fun e => e.2)

/-! ## The embedded ordered key-value store (LMDB model)

Keys and values are byte lists; keys include the terminating NUL, exactly
as `mv_size = strlen + 1` stores them.  The database is an association
list sorted strictly by the byte-lexicographic order `keyLt`, which is how
the B+-tree orders keys and what `MDB_SET_RANGE` / `MDB_NEXT` iterate in.
An open write transaction is a private copy of this list; `mdb_txn_commit`
makes it the visible store, `mdb_txn_abort` discards it. -/

def keyLt : List Nat → List Nat → Bool
  | [], [] => false
  | [], _ :: _ => true
  | _ :: _, [] => false
  | a :: as, b :: bs => a < b || (a == b && keyLt as bs)

abbrev Store := List (List Nat × List Nat)

def mdb_get (st : Store) (k : List Nat) : Option (List Nat) :=
  match st.find? (fun e => e.1 == k) with
  | none => none
  | some e => some e.2

def mdb_put : Store → List Nat → List Nat → Store
  | [], k, v => [(k, v)]
  | e :: rest, k, v =>
    if keyLt k e.1 then (k, v) :: e :: rest
    else if k = e.1 then (k, v) :: rest
    else e :: mdb_put rest k v

def mdb_del : Store → List Nat → Store
  | [], _ => []
  | e :: rest, k => if e.1 = k then rest else e :: mdb_del rest k

/-- Cursor `MDB_SET_RANGE`: position at the first entry whose key is not
below the search key (the store is kept sorted). -/
def seek_range (st : Store) (k : List Nat) : Option (List Nat × List Nat) :=
  (st.dropWhile (fun e => keyLt e.1 k)).head?

def StoreSorted (st : Store) : Prop :=
  st.Pairwise (fun e f => keyLt e.1 f.1 = true)

/-! ## External collaborators -/

/-- The backend's external context: the object database (`parse_object`
reduced to the object's type), the committer identity line, the nanosecond
clock reading for this update, the `log_all_ref_updates` configuration
(already resolved from the config / bare-repository default), and the
files backend's resolver used for FETCH_HEAD / MERGE_HEAD. -/
structure Ctx where
  objdb : List Nat → Option Nat
  committer : List Nat
  now : Nat
  log_all_ref_updates : Bool
  files_resolve : List Nat → Nat → (Option (List Nat × List Nat) × Nat)

/-- The bytes of a stored C string (truncate at the NUL). -/
def cstr (b : List Nat) : List Nat := b.takeWhile (fun c => c != 0)

/-! ## Name-hierarchy check (refs-be-lmdb.c:346-430, refs.c:1152-1178) -/

/-- `find_descendant_ref` (refs.c:1152-1178): the first entry of the
sorted `extras` list at or after `dirname` that starts with `dirname` and
is not in `skip`.  (The lmdb caller passes the plain refname, without a
trailing slash, as `dirname`.) -/
def find_descendant_ref (dirname : List Nat) (extras : Option (List (List Nat)))
    (skip : Option (List (List Nat))) : Option (List Nat) :=
  match extras with
  | none => none
  | some ex =>
    ((ex.dropWhile (fun s => keyLt s dirname)).takeWhile
        (fun s => dirname.isPrefixOf s)).find?
      (fun s => match skip with
        | none => true
        | some sk => !sk.contains s)

/-- `verify_refname_available_txn` (refs-be-lmdb.c:346-430).  Returns true
when the name is NOT available (the C returns 1 and fills `err`).
The subdirectory scan does `MDB_SET_RANGE` to `refname + "/" + NUL` and
walks the cursor while the key starts with `refname + "/"`, skipping keys
listed in `skip`; on a sorted store those keys are exactly the contiguous
run modelled by dropWhile/takeWhile below.  Then every proper '/'-prefix
of `refname` is checked against `skip`, `extras` and the store, and
finally `find_descendant_ref` is consulted. -/
def verify_refname_available_txn (st : Store) (refname : List Nat)
    (extras skip : Option (List (List Nat))) : Bool :=
  let search := refname ++ [47]
  let seek := search ++ [0]
  let run := (st.dropWhile (fun e => keyLt e.1 seek)).takeWhile
    (fun e => search.isPrefixOf e.1)
  let subdir_conflict := run.any (fun e =>
    match skip with
    | none => true
    | some sk => !sk.contains (cstr e.1))
  let parents := (List.range refname.length).filterMap (fun i =>
    if refname.getD i 0 = 47 then some (refname.take i) else none)
  let parent_conflict := parents.any (fun p =>
    (match skip with
     | none => true
     | some sk => !sk.contains p) &&
    ((match extras with
      | none => false
      | some ex => ex.contains p) ||
     (mdb_get st (p ++ [0])).isSome))
  subdir_conflict || parent_conflict || (find_descendant_ref refname extras skip).isSome

/-! ## Resolution (refs-be-lmdb.c:432-516) -/

/-- `resolve_ref_unsafe_txn` (refs-be-lmdb.c:432-496). -/
def resolve_ref_unsafe_txn (st : Store) (refname : List Nat) (resolve_flags : Nat) :
    (Option (List Nat × List Nat) × Nat) :=
  let bad_name := check_refname_format refname REFNAME_ALLOW_ONELEVEL ≠ 0
  let flags0 := if bad_name then REF_BAD_NAME else 0
  if bad_name ∧ (resolve_flags &&& RESOLVE_REF_ALLOW_BAD_NAME = 0 ∨
      refname_is_safe refname = false) then
    (none, flags0)
  else
    match mdb_get st (refname ++ [0]) with
    | none =>
      let flags1 := if bad_name then flags0 ||| REF_ISBROKEN else flags0
      if resolve_flags &&& RESOLVE_REF_READING ≠ 0 then (none, flags1)
      else if verify_refname_available_txn st refname none none then (none, flags1)
      else (some (refname, nullSha1), flags1)
    | some v =>
      parse_ref_data (fun k => mdb_get st k) MAXDEPTH refname v resolve_flags
        flags0 (decide bad_name)

/-- `lmdb_resolve_ref_unsafe` (refs-be-lmdb.c:505-516): FETCH_HEAD and
MERGE_HEAD fall back to the files backend; everything else resolves in the
current transaction's view of the database. -/
def lmdb_resolve_ref_unsafe (ctx : Ctx) (st : Store) (refname : List Nat)
    (resolve_flags : Nat) : (Option (List Nat × List Nat) × Nat) :=
  if refname = bytes "FETCH_HEAD" ∨ refname = bytes "MERGE_HEAD" then
    ctx.files_resolve refname resolve_flags
  else
    resolve_ref_unsafe_txn st refname resolve_flags

/-! ## Reflog keys and writing (refs-be-lmdb.c:518-573, 1122-1152) -/

/-- Big-endian 8-byte timestamp bytes: `write_u64(.., htonll(now))`
(refs-be-lmdb.c:518-524, 558) on a little-endian host. -/
def be64 (n : Nat) : List Nat :=
  (List.range 8).map (fun i => n / 256 ^ (7 - i) % 256)

/-- `should_autocreate_reflog` (refs.c:712-720). -/
def should_autocreate_reflog (log_all : Bool) (refname : List Nat) : Bool :=
  log_all &&
    ((bytes "refs/heads/").isPrefixOf refname ||
     (bytes "refs/remotes/").isPrefixOf refname ||
     (bytes "refs/notes/").isPrefixOf refname ||
     refname == bytes "HEAD")

/-- `is_branch` (refs.c:722-725). -/
def is_branch (refname : List Nat) : Bool :=
  refname == bytes "HEAD" || (bytes "refs/heads/").isPrefixOf refname

/-- The reflog header key: the `xcalloc`-zeroed buffer of size
`strlen(refname) + 14` into which only `"logs/%s"` is printed, so the key
bytes are `"logs/" + refname + NUL` followed by eight zero bytes
(refs-be-lmdb.c:543-546, 1140-1142). -/
def reflog_header_key (refname : List Nat) : List Nat :=
  bytes "logs/" ++ refname ++ [0] ++ List.replicate 8 0

/-- A reflog entry key: `"logs/" + refname + NUL + timestamp` with the
eight timestamp bytes spliced over the key's last eight bytes. -/
def reflog_entry_key (refname : List Nat) (ts : List Nat) : List Nat :=
  bytes "logs/" ++ refname ++ [0] ++ ts

/-- `lmdb_create_reflog` (refs-be-lmdb.c:1122-1152) as called from inside
an open write transaction (`log_ref_write` and `lmdb_rename_ref` only call
it there, so the standalone begin/commit branches do not arise): unless
forced or covered by the autocreation policy, do nothing; otherwise store
an empty value under the header key. -/
def lmdb_create_reflog (log_all : Bool) (st : Store) (refname : List Nat)
    (force_create : Bool) : Store :=
  if ¬ force_create ∧ should_autocreate_reflog log_all refname = false then st
  else mdb_put st (reflog_header_key refname) []

/-- The whitespace-collapsing loop of `copy_reflog_msg` (refs.c:697-705):
skip whitespace after whitespace, replace other whitespace by a single
space.  `wasspace` starts as 1. -/
def copy_reflog_msg_collapse : Bool → List Nat → List Nat
  | _, [] => []
  | wasspace, c :: cs =>
    if wasspace ∧ isspaceB c = true then copy_reflog_msg_collapse true cs
    else if isspaceB c then 32 :: copy_reflog_msg_collapse true cs
    else c :: copy_reflog_msg_collapse false cs

/-- `copy_reflog_msg` (refs.c:691-710): a tab, the collapsed message,
trailing whitespace trimmed (the trim may consume the tab itself), and a
final newline. -/
def copy_reflog_msg (msg : List Nat) : List Nat :=
  ((9 :: copy_reflog_msg_collapse true msg).reverse.dropWhile
    (fun c => isspaceB c)).reverse ++ [10]

/-- Modelled from the spec: `format_reflog_entry` is absent from the
sources; spec section 4.2 gives the line form
`<old-hex> <new-hex> <committer>` with the message appended after a tab
(whitespace collapsed, which is `copy_reflog_msg` above), ending in LF. -/
def format_reflog_entry (old_sha1 new_sha1 committer : List Nat)
    (msg : Option (List Nat)) : List Nat :=
  sha1_to_hex old_sha1 ++ [32] ++ sha1_to_hex new_sha1 ++ [32] ++ committer ++
    (match msg with
     | none => [10]
     | some m => copy_reflog_msg m)

/-- `log_ref_write` (refs-be-lmdb.c:526-573), inside an open write
transaction.  After attempting policy-driven autocreation it probes for
the header key; if the header is ABSENT it returns 0 without writing
anything (the entry is silently dropped); otherwise it stores the
formatted entry, NUL-terminated, under the key whose last eight bytes are
the big-endian timestamp. -/
def log_ref_write (ctx : Ctx) (st : Store) (refname : List Nat)
    (old_sha1 new_sha1 : List Nat) (msg : Option (List Nat)) : Int × Store :=
  let st1 := lmdb_create_reflog ctx.log_all_ref_updates st refname false
  match mdb_get st1 (reflog_header_key refname) with
  | none => (0, st1)
  | some _ =>
    let entry := format_reflog_entry old_sha1 new_sha1 ctx.committer msg
    (0, mdb_put st1 (reflog_entry_key refname (be64 ctx.now)) (entry ++ [0]))

/-- `lmdb_delete_reflog` (refs-be-lmdb.c:705-749) inside the open write
transaction: `MDB_SET_RANGE` to `"logs/" + refname + NUL` and delete the
contiguous run of keys that start with those bytes (header and all
timestamped entries); on a sorted store that run is exactly the keys with
that prefix. -/
def lmdb_delete_reflog (st : Store) (refname : List Nat) : Store :=
  let seek := bytes "logs/" ++ refname ++ [0]
  let pre := st.takeWhile (fun e => keyLt e.1 seek)
  let rest := st.dropWhile (fun e => keyLt e.1 seek)
  pre ++ rest.dropWhile (fun e => seek.isPrefixOf e.1)

/-- `lmdb_reflog_exists` (refs-be-lmdb.c:1066-1095): `MDB_SET_RANGE` to
`"logs/" + refname + NUL` and test whether the key found starts with the
C string `"logs/" + refname` — i.e. WITHOUT the trailing NUL sentinel. -/
def lmdb_reflog_exists (st : Store) (refname : List Nat) : Bool :=
  let log_path := bytes "logs/" ++ refname
  match seek_range st (log_path ++ [0]) with
  | none => false
  | some e => log_path.isPrefixOf e.1

/-! ## Transactional updates (refs-be-lmdb.c:597-870) -/

/-- `check_ref` (refs-be-lmdb.c:597-636): resolve the name (reading when a
non-null old id must match, tolerating bad names and disabling recursion
when deleting with NODEREF), then under `old_sha1` with NODEREF re-resolve
the resolved name without NO_RECURSE.  The C overwrites `resolved_sha1`
with the second resolve's result but ignores its return value, and
`*type_p` keeps the FIRST resolve's flags (they are stored at line 617,
before the re-resolve); the buffer effect of a failing second resolve is
not modelled — the model keeps the first resolve's id in that case.
Finally the expected old id is compared. -/
def check_ref (ctx : Ctx) (st : Store) (refname : List Nat)
    (old_sha1 : Option (List Nat)) (flags : Nat) :
    Option (List Nat × List Nat × Nat) :=
  let mustexist := old_sha1.isSome ∧ old_sha1 ≠ some nullSha1
  let rf0 := if mustexist then RESOLVE_REF_READING else 0
  let rf1 := if flags &&& REF_DELETING ≠ 0 then
      rf0 ||| RESOLVE_REF_ALLOW_BAD_NAME |||
        (if flags &&& REF_NODEREF ≠ 0 then RESOLVE_REF_NO_RECURSE else 0)
    else rf0
  match lmdb_resolve_ref_unsafe ctx st refname rf1 with
  | (none, _) => none
  | (some (name, resolved), ty) =>
    match old_sha1 with
    | none => some (name, resolved, ty)
    | some old =>
      let rr := if flags &&& REF_NODEREF ≠ 0 then
          lmdb_resolve_ref_unsafe ctx st name (clearFlag rf1 RESOLVE_REF_NO_RECURSE)
        else (some (name, resolved), ty)
      let resolved2 := match rr.1 with
        | some p => p.2
        | none => resolved
      if old ≠ resolved2 then none
      else some (name, resolved2, ty)

/-- The reflog writes at the end of `lmdb_transaction_update`
(refs-be-lmdb.c:857-867): log under the original name, and also under the
resolved name when it differs. -/
def update_logs (ctx : Ctx) (st : Store) (orig wname : List Nat)
    (old_v new_v : List Nat) (msg : Option (List Nat)) (seen : List (List Nat)) :
    Int × Store × List (List Nat) :=
  let r1 := log_ref_write ctx st orig old_v new_v msg
  if r1.1 < 0 then (-1, r1.2, seen)
  else if wname ≠ orig then
    let r2 := log_ref_write ctx r1.2 wname old_v new_v msg
    if r2.1 < 0 then (-1, r2.2, seen) else (0, r2.2, seen)
  else (0, r1.2, seen)

/-- The deleting / logging tail of `lmdb_transaction_update`
(refs-be-lmdb.c:849-869), entered with the flag word and the store as they
stand after the value-write branch. -/
def update_tail (ctx : Ctx) (st : Store) (seen : List (List Nat))
    (orig wname : List Nat) (key : List Nat) (new_sha1 old_sha1 : Option (List Nat))
    (resolved : List Nat) (flags : Nat) (msg : Option (List Nat)) :
    Int × Store × List (List Nat) :=
  if flags &&& REF_DELETING ≠ 0 then
    let del_hit := (mdb_get st key).isSome
    let st2 := mdb_del st key
    if del_hit = false ∧ (old_sha1.isSome ∧ old_sha1 ≠ some nullSha1) then
      (TRANSACTION_GENERIC_ERROR, st2, seen)
    else (0, lmdb_delete_reflog st2 orig, seen)
  else if flags &&& REF_NO_REFLOG = 0 then
    update_logs ctx st orig wname resolved (new_sha1.getD nullSha1) msg seen
  else (0, st, seen)

/-- `lmdb_transaction_update` (refs-be-lmdb.c:753-870).  `st` is the open
write transaction's private view of the database; `seen` the
`updated_refs` hashmap (refnames compared by bytes, refs-be-lmdb.c:98-106).
Returns the C result code with the updated view and hashmap.  (The C is
only defined when a present `new_sha1`/`old_sha1` pointer accompanies any
caller-supplied HAVE_NEW/HAVE_OLD bit; the model tests presence of the
optional ids where the C tests those bits.) -/
def lmdb_transaction_update (ctx : Ctx) (st : Store) (seen : List (List Nat))
    (refname : List Nat) (new_sha1 old_sha1 : Option (List Nat)) (flags0 : Nat)
    (msg : Option (List Nat)) : Int × Store × List (List Nat) :=
  let flags1 := flags0 ||| (if new_sha1.isSome then REF_HAVE_NEW else 0) |||
    (if old_sha1.isSome then REF_HAVE_OLD else 0)
  let flags := flags1 ||| (if new_sha1 = some nullSha1 then REF_DELETING else 0)
  if new_sha1.isSome ∧ new_sha1 ≠ some nullSha1 ∧
      check_refname_format refname REFNAME_ALLOW_ONELEVEL ≠ 0 then
    (TRANSACTION_GENERIC_ERROR, st, seen)
  else if seen.contains refname then
    (TRANSACTION_GENERIC_ERROR, st, seen)
  else
    let seen1 := refname :: seen
    match check_ref ctx st refname old_sha1 flags with
    | none => (TRANSACTION_GENERIC_ERROR, st, seen1)
    | some (rname, resolved, ty) =>
      if flags &&& REF_DELETING = 0 ∧ is_null_sha1 resolved = true ∧
          verify_refname_available_txn st rname none none = true then
        (TRANSACTION_NAME_CONFLICT, st, seen1)
      else
        let wname := if flags &&& REF_NODEREF ≠ 0 then refname else rname
        let key := wname ++ [0]
        match new_sha1 with
        | some n =>
          if is_null_sha1 n = false then
            let overwriting_symref := ty &&& REF_ISSYMREF ≠ 0 ∧
              flags &&& REF_NODEREF ≠ 0
            match ctx.objdb n with
            | none => (-1, st, seen1)
            | some oty =>
              if oty ≠ OBJ_COMMIT ∧ is_branch wname = true then (-1, st, seen1)
              else if ¬ overwriting_symref ∧ resolved = n then
                -- the ref already has the desired value: nothing is stored
                -- and REF_NO_REFLOG makes the tail skip the reflog write
                update_tail ctx st seen1 refname wname key new_sha1 old_sha1
                  resolved (flags ||| REF_NO_REFLOG) msg
              else
                update_tail ctx (mdb_put st key (sha1_to_hex n ++ [0])) seen1
                  refname wname key new_sha1 old_sha1 resolved flags msg
          else
            update_tail ctx st seen1 refname wname key new_sha1 old_sha1
              resolved flags msg
        | none =>
          update_tail ctx st seen1 refname wname key new_sha1 old_sha1
            resolved flags msg

/-! ## Backend commit of a transaction (the per-partition commit of
do_ref_transaction_commit, refs.c:1499-1567, with the lmdb backend) -/

structure UpdateReq where
  refname : List Nat
  new_sha1 : Option (List Nat)
  old_sha1 : Option (List Nat)
  flags : Nat
  msg : Option (List Nat)
deriving DecidableEq, Repr

/-- Apply a partition's updates inside one open write transaction.  The
first failing update stops the commit (the engine reports the error and
the caller frees the transaction, which `mdb_txn_abort`s it,
refs-be-lmdb.c:683-692). -/
def lmdb_apply_updates (ctx : Ctx) : Store → List (List Nat) → List UpdateReq →
    Except Int Store
  | txn, _, [] => .ok txn
  | txn, seen, u :: rest =>
    let r := lmdb_transaction_update ctx txn seen u.refname u.new_sha1 u.old_sha1
      u.flags u.msg
    if r.1 = 0 then lmdb_apply_updates ctx r.2.1 r.2.2 rest
    else .error r.1

/-- Committing a partition against the visible store `st`: begin a write
transaction (a private copy of `st`), apply every update, and either
`mdb_txn_commit` the new view (refs-be-lmdb.c:694-703) or abort, leaving
`st` as the visible store. -/
def lmdb_commit_updates (ctx : Ctx) (st : Store) (us : List UpdateReq) :
    Int × Store :=
  match lmdb_apply_updates ctx st [] us with
  | .ok txn => (0, txn)
  | .error e => (e, st)

/-! ## The generic transaction engine (refs.c:12-15, 845-917, 1225-1248,
1416-1567) -/

/-- `split_transaction_fail_warning` (refs.c:12-15). -/
def split_transaction_fail_warning : List Nat :=
  bytes "A ref transaction was split across two refs backends.  Part of the transaction succeeded, but then the update to the per-worktree refs failed.  Your repository may be in an inconsistent state."

/-- One `struct ref_update` as refs.c uses it: the id arrays are embedded
(zero-filled by the flex allocation and meaningful only with the matching
HAVE bit); `type` and `read_sha1` are filled in by `dereference_symrefs`. -/
structure RefUpdate where
  refname : List Nat
  new_sha1 : List Nat
  old_sha1 : List Nat
  flags : Nat
  msg : Option (List Nat)
  type : Nat
  read_sha1 : List Nat
deriving DecidableEq, Repr

/-- `ref_transaction_update` (refs.c:883-917): refuse a bad name when a
non-null new id is given, otherwise append a zero-initialised update
holding the ids that were passed, with REF_HAVE_NEW / REF_HAVE_OLD added
to the caller's flags for them. -/
def ref_transaction_update_g (tx : List RefUpdate) (refname : List Nat)
    (new_sha1 old_sha1 : Option (List Nat)) (flags : Nat)
    (msg : Option (List Nat)) : Except Int (List RefUpdate) :=
  if new_sha1.isSome ∧ new_sha1 ≠ some nullSha1 ∧
      check_refname_format refname REFNAME_ALLOW_ONELEVEL ≠ 0 then
    .error (-1)
  else
    .ok (tx ++ [{ refname := refname
                  new_sha1 := new_sha1.getD nullSha1
                  old_sha1 := old_sha1.getD nullSha1
                  flags := flags ||| (if new_sha1.isSome then REF_HAVE_NEW else 0)
                    ||| (if old_sha1.isSome then REF_HAVE_OLD else 0)
                  msg := msg
                  type := 0
                  read_sha1 := nullSha1 }])

/-- One iteration of the `dereference_symrefs` loop (refs.c:1422-1471) on
update `u`, against the resolver `resolve` (refname and resolve flags to
the resolved name/id and type flags).  Returns the possibly-rewritten
original update and the update appended for the underlying ref, if any;
the error is the -1 that `ref_transaction_update` reports for a bad
appended name.  Note that the append passes `update->new_sha1`, a pointer
to the embedded array, which is never NULL — so the appended update always
gains REF_HAVE_NEW, even when the original carried no new id. -/
def deref_one (resolve : List Nat → Nat → (Option (List Nat × List Nat) × Nat))
    (u : RefUpdate) : Except Int (RefUpdate × Option RefUpdate) :=
  let mustexist := u.flags &&& REF_HAVE_OLD ≠ 0 ∧ is_null_sha1 u.old_sha1 = false
  let deleting := u.flags &&& REF_HAVE_NEW ≠ 0 ∧ is_null_sha1 u.new_sha1 = true
  let rf := (if mustexist then RESOLVE_REF_READING else 0) |||
    (if deleting then RESOLVE_REF_ALLOW_BAD_NAME ||| RESOLVE_REF_NO_RECURSE else 0)
  let u1 := if u.refname ≠ bytes "HEAD" then
      { u with flags := u.flags ||| REF_IS_NOT_HEAD } else u
  match resolve u1.refname rf with
  | (none, ty) => .ok ({ u1 with type := ty ||| REF_ISBROKEN }, none)
  | (some (resolved, sha1), ty) =>
    let u2 := { u1 with type := ty, read_sha1 := sha1 }
    if u2.flags &&& REF_NODEREF ≠ 0 ∨ u2.type &&& REF_ISSYMREF = 0 then
      .ok (u2, none)
    else
      match ref_transaction_update_g [] resolved (some u2.new_sha1)
          (if u2.flags &&& REF_HAVE_OLD ≠ 0 then some u2.old_sha1 else none)
          (clearFlag u2.flags REF_IS_NOT_HEAD) u2.msg with
      | .error e => .error e
      | .ok apps =>
        .ok ({ u2 with
                flags := clearFlag (u2.flags ||| REF_LOG_ONLY ||| REF_NODEREF)
                  REF_HAVE_OLD },
             apps.head?)

/-- `dereference_symrefs` (refs.c:1416-1474): the loop runs over the
transaction's original updates (`nr` is read before the loop, so appended
updates are not themselves processed); the appended updates end up after
all originals, in loop order. -/
def dereference_symrefs
    (resolve : List Nat → Nat → (Option (List Nat × List Nat) × Nat)) :
    List RefUpdate → Except Int (List RefUpdate × List RefUpdate)
  | [] => .ok ([], [])
  | u :: rest =>
    match deref_one resolve u with
    | .error e => .error e
    | .ok (u1, app) =>
      match dereference_symrefs resolve rest with
      | .error e => .error e
      | .ok (rest1, apps) => .ok (u1 :: rest1, app.toList ++ apps)

/-- `get_affected_refnames` (refs.c:1225-1248) reduced to its outcome: it
sorts the refnames and fails iff two adjacent sorted entries are equal,
which is exactly the presence of a duplicate refname. -/
def get_affected_refnames_dup (us : List RefUpdate) : Bool :=
  !(decide (us.map (fun u => u.refname)).Nodup)

/-- `do_ref_transaction_commit` (refs.c:1499-1567) with the backends
abstracted: `primary_is_files` is `the_refs_backend == refs_be_files`,
`primary_commit` / `files_commit` return the backend commit results, and
`resolve` stands for `resolve_ref_unsafe`.  The result carries the emitted
warnings (the only candidate is the split-transaction warning). -/
structure CommitOutcome where
  result : Int
  warnings : List (List Nat)
deriving DecidableEq, Repr

def do_ref_transaction_commit
    (resolve : List Nat → Nat → (Option (List Nat × List Nat) × Nat))
    (primary_is_files : Bool)
    (primary_commit files_commit : List RefUpdate → Int)
    (tx : List RefUpdate) : CommitOutcome :=
  if tx = [] then { result := 0, warnings := [] }
  else
    match dereference_symrefs resolve tx with
    | .error e => { result := e, warnings := [] }
    | .ok (orig, apps) =>
      let all := orig ++ apps
      if primary_is_files then
        if get_affected_refnames_dup all then
          { result := TRANSACTION_GENERIC_ERROR, warnings := [] }
        else { result := primary_commit all, warnings := [] }
      else
        let normal := all.filter (fun u => ref_type u.refname == RefType.normal)
        let abnormal := all.filter (fun u => !(ref_type u.refname == RefType.normal))
        if get_affected_refnames_dup abnormal then
          { result := TRANSACTION_GENERIC_ERROR, warnings := [] }
        else if get_affected_refnames_dup normal then
          { result := TRANSACTION_GENERIC_ERROR, warnings := [] }
        else
          let r := primary_commit normal
          if r ≠ 0 then { result := r, warnings := [] }
          else
            let rf := files_commit abnormal
            if rf ≠ 0 then
              { result := rf, warnings := [split_transaction_fail_warning] }
            else { result := 0, warnings := [] }

/-! ## Reflog iteration and rename (refs-be-lmdb.c:872-970, 972-1063) -/

/-- Modelled from the spec (section 2 and 4.3): `parse_reflog_line`
requires at least 83 bytes, a final LF, two 40-digit hex ids separated and
followed by spaces, an email closed by `>` and a space, a non-zero decimal
timestamp, and a signed four-digit timezone after one space. -/
def isdigitB (c : Nat) : Bool := 48 ≤ c && c ≤ 57

def reflog_ts_tz_ok (r : List Nat) : Bool :=
  let ds := r.takeWhile isdigitB
  let ms := r.dropWhile isdigitB
  ds.any (fun c => c ≠ 48) &&
    match ms with
    | 32 :: s :: d1 :: d2 :: d3 :: d4 :: _ =>
      (s == 43 || s == 45) && isdigitB d1 && isdigitB d2 && isdigitB d3 &&
        isdigitB d4
    | _ => false

def reflog_email_ok : List Nat → Bool
  | [] => false
  | 62 :: 32 :: rest => reflog_ts_tz_ok rest
  | 62 :: _ => false
  | _ :: rest => reflog_email_ok rest

def parse_reflog_line (sb : List Nat) : Bool :=
  83 ≤ sb.length && sb.getLastD 0 == 10 &&
    (get_sha1_hex 20 sb).isSome && sb.getD 40 0 == 32 &&
    (get_sha1_hex 20 (sb.drop 41)).isSome && sb.getD 81 0 == 32 &&
    reflog_email_ok (sb.drop 82)

/-- The reflog entries `lmdb_for_each_reflog_ent_order` visits forward
(refs-be-lmdb.c:986-1042, reverse = 0): `MDB_SET_RANGE` to the seek key
`"logs/" + refname + NUL` (the terminating NUL is part of the key), then
the loop's first cursor operation is already `MDB_NEXT`, so the entry the
seek landed on is skipped; iteration continues while the key starts with
the seek bytes.  On a sorted store the visited entries are the
prefix-matching run starting one PAST the first key at or after the seek
key (in the intended stores that skipped key is the reflog header). -/
def reflog_ent_run (st : Store) (refname : List Nat) :
    List (List Nat × List Nat) :=
  let seek := bytes "logs/" ++ refname ++ [0]
  ((st.dropWhile (fun e => keyLt e.1 seek)).drop 1).takeWhile
    (fun e => seek.isPrefixOf e.1)

/-- The `rename_reflog_ent` pass of `lmdb_rename_ref` (refs-be-lmdb.c:872-894
driven by for_each_reflog_ent at 937): every visited entry whose key does
not end in eight zero bytes (those are skipped by the iterator) and whose
NUL-stripped value parses as a reflog line is stored under
`"logs/" + newref + NUL` plus the old key's trailing eight timestamp bytes
and deleted from under the old name; entries failing the parse are left in
place (the callback is never invoked for them).  The run is computed from
the starting store: the writes land outside the old run (the two names
share no `logs/<name>\0` prefix), so the live cursor sees exactly these
entries. -/
def rename_move_entries (st : Store) (oldref newref : List Nat) : Store :=
  (reflog_ent_run st oldref).foldl
    (fun acc e =>
      if e.1.drop (e.1.length - 8) = List.replicate 8 0 then acc
      else if parse_reflog_line (e.2.take (e.2.length - 1)) = false then acc
      else mdb_del
        (mdb_put acc
          (bytes "logs/" ++ newref ++ [0] ++ e.1.drop (e.1.length - 8)) e.2)
        e.1)
    st

/-- `lmdb_rename_ref` (refs-be-lmdb.c:896-970).  `st` is the visible store;
a write transaction is begun, so all intermediate stores are the private
view, published by the final commit.  Notes kept from the source: the old
reflog "sentinel" delete key is `"logs/" + oldref` followed directly by
eight zero bytes — one byte (the NUL) short of the header key, so the old
header survives; `ref_transaction_delete` goes through the generic engine,
which only queues a `ref_update` in an array that `lmdb_transaction_commit`
never reads, so the old ref's value is not touched by it; the error
returns leave the write transaction open and the visible store unchanged. -/
def lmdb_rename_ref (ctx : Ctx) (st : Store) (oldref newref : List Nat)
    (logmsg : Option (List Nat)) : Int × Store :=
  if oldref = newref then (0, st)
  else
    let log := lmdb_reflog_exists st oldref
    match lmdb_resolve_ref_unsafe ctx st oldref RESOLVE_REF_READING with
    | (name?, fl) =>
      if fl &&& REF_ISSYMREF ≠ 0 then (-1, st)
      else
        match name? with
        | none => (-1, st)
        | some (_, orig_sha1) =>
          if verify_refname_available_txn st newref none (some [oldref]) then
            (1, st)
          else
            let st1 := if log then
                mdb_del
                  (rename_move_entries
                    (lmdb_create_reflog true st newref false) oldref newref)
                  (bytes "logs/" ++ oldref ++ List.replicate 8 0)
              else st
            let r := lmdb_transaction_update ctx st1 [] newref (some orig_sha1)
              none 0 logmsg
            if r.1 ≠ 0 then (1, st)
            else (0, r.2.1)

/-! ## Worked stores for the backend -/

def ex_id1 : List Nat := List.replicate 20 17

def ex_id2 : List Nat := List.replicate 20 34

/-- A context whose object database knows every id as a commit. -/
def ex_ctx : Ctx :=
  { objdb := fun _ => some OBJ_COMMIT
    committer := bytes "C O Mitter <committer@example.com> 1234567890 +0000"
    now := 2000
    log_all_ref_updates := true
    files_resolve := fun _ _ => (none, 0) }

/-- A store holding refs/heads/master at `ex_id1`. -/
def ex_store : Store :=
  [(bytes "refs/heads/master" ++ [0], sha1_to_hex ex_id1 ++ [0])]

/-- Two queued updates: a creation, then a compare-and-swap that must fail
(refs/heads/master is at `ex_id1`, not `ex_id2`). -/
def cas_updates : List UpdateReq :=
  [ { refname := bytes "refs/heads/other", new_sha1 := some ex_id2,
      old_sha1 := some nullSha1, flags := 0, msg := some (bytes "create") },
    { refname := bytes "refs/heads/master", new_sha1 := some ex_id2,
      old_sha1 := some ex_id2, flags := 0, msg := some (bytes "update") } ]

/-- A store whose only key is the reflog header of refs/heads/ab. -/
def ex_logstore : Store := [(reflog_header_key (bytes "refs/heads/ab"), [])]

def ex_resolve (name : List Nat) (_rf : Nat) :
    Option (List Nat × List Nat) × Nat :=
  if name = bytes "HEAD" then (some (bytes "refs/heads/master", ex_id1), REF_ISSYMREF)
  else (some (name, ex_id1), 0)

def ex_verify_update : RefUpdate :=
  { refname := bytes "HEAD", new_sha1 := nullSha1, old_sha1 := ex_id1,
    flags := REF_HAVE_OLD, msg := some (bytes "m"), type := 0,
    read_sha1 := nullSha1 }

def ex_commit_tx : List RefUpdate :=
  [ { refname := bytes "refs/heads/topic", new_sha1 := ex_id2,
      old_sha1 := nullSha1, flags := REF_HAVE_NEW, msg := some (bytes "m"),
      type := 0, read_sha1 := nullSha1 },
    { refname := bytes "MERGE_HEAD", new_sha1 := ex_id2,
      old_sha1 := nullSha1, flags := REF_HAVE_NEW, msg := some (bytes "m"),
      type := 0, read_sha1 := nullSha1 } ]

def ex_commit_orig : List RefUpdate :=
  [ { refname := bytes "refs/heads/topic", new_sha1 := ex_id2,
      old_sha1 := nullSha1, flags := REF_HAVE_NEW ||| REF_IS_NOT_HEAD,
      msg := some (bytes "m"), type := 0, read_sha1 := ex_id1 },
    { refname := bytes "MERGE_HEAD", new_sha1 := ex_id2,
      old_sha1 := nullSha1, flags := REF_HAVE_NEW ||| REF_IS_NOT_HEAD,
      msg := some (bytes "m"), type := 0, read_sha1 := ex_id1 } ]

def ex_entry1 : List Nat :=
  format_reflog_entry nullSha1 ex_id1 ex_ctx.committer (some (bytes "initial"))

def ex_rename_store : Store :=
  [ (reflog_header_key (bytes "refs/heads/a"), []),
    (reflog_entry_key (bytes "refs/heads/a") (be64 1000), ex_entry1 ++ [0]),
    (bytes "refs/heads/a" ++ [0], sha1_to_hex ex_id1 ++ [0]) ]

/-! ## Theorems -/


theorem adj2_nil (a b : Nat) : adj2 a b [] = false := rfl

theorem adj2_single (a b x : Nat) : adj2 a b [x] = false := rfl

theorem adj2_cons₂ (a b x y : Nat) (t : List Nat) :
    adj2 a b (x :: y :: t) = ((a == x && b == y) || adj2 a b (y :: t)) := rfl

theorem sub_in_pair (a b : Nat) : ∀ l, sub_in [a, b] l = adj2 a b l := by
  intro l
  induction l with
  | nil => simp [sub_in, adj2]
  | cons c cs ih =>
    cases cs with
    | nil => simp [sub_in, adj2, List.isPrefixOf]
    | cons d t =>
      show ([a,b].isPrefixOf (c :: d :: t) || sub_in [a,b] (d :: t)) = _
      rw [ih, adj2_cons₂]
      show ((a == c && ((b == d) && List.isPrefixOf [] t)) || adj2 a b (d :: t)) = ((a == c && b == d) || adj2 a b (d :: t))
      simp [List.isPrefixOf]

theorem refname_disposition_ge (c : Nat) (h : 256 ≤ c) : refname_disposition c = 0 := by
  unfold refname_disposition
  apply List.getD_eq_default
  simp only [refname_disposition_table, List.length]
  omega

theorem bad_byte_ge (c : Nat) (h : 256 ≤ c) : bad_byte c = false := by
  simp only [bad_byte, Bool.or_eq_false_iff, decide_eq_false_iff_not, beq_eq_false_iff_ne, ne_eq]
  omega

theorem disp_spec (c : Nat) :
    refname_disposition c =
      if c = 0 ∨ c = 47 then 1
      else if c = 46 then 2
      else if c = 123 then 3
      else if c = 42 then 5
      else if bad_byte c then 4
      else 0 := by
  by_cases h : c < 256
  · revert h
    exact (by decide : ∀ x < 256, refname_disposition x =
      if x = 0 ∨ x = 47 then 1 else if x = 46 then 2 else if x = 123 then 3
      else if x = 42 then 5 else if bad_byte x then 4 else 0) c
  · push_neg at h
    rw [refname_disposition_ge c h, bad_byte_ge c h]
    have h0 : ¬ (c = 0 ∨ c = 47) := by omega
    have h46 : c ≠ 46 := by omega
    have h123 : c ≠ 123 := by omega
    have h42 : c ≠ 42 := by omega
    simp [h0, h46, h123, h42]

theorem scan_spec_cons (pattern : Bool) (last c : Nat) (cs : List Nat) :
    scan_spec pattern last (c :: cs) =
      if bad_byte c then none
      else if last = 46 ∧ c = 46 then none
      else if last = 64 ∧ c = 123 then none
      else if c = 42 then (if pattern then scan_spec false c cs else none)
      else scan_spec pattern c cs := by
  by_cases hbad : bad_byte c = true
  · have h46 : c ≠ 46 := by rintro rfl; simp [bad_byte] at hbad
    have h123 : c ≠ 123 := by rintro rfl; simp [bad_byte] at hbad
    have h42 : c ≠ 42 := by rintro rfl; simp [bad_byte] at hbad
    simp [scan_spec, hbad, h46, h123, h42]
  · rw [if_neg hbad]
    by_cases h46 : c = 46
    · subst h46
      by_cases hl : last = 46
      · subst hl
        simp [scan_spec, adj2_cons₂]
      · have hb : (46 == last) = false := by simp [Ne.symm hl]
        simp [scan_spec, adj2_cons₂, hb, hbad, List.count_cons, hl]
    · by_cases h123 : c = 123
      · subst h123
        by_cases hl : last = 64
        · subst hl
          simp [scan_spec, adj2_cons₂]
        · have hb : (64 == last) = false := by simp [Ne.symm hl]
          simp [scan_spec, adj2_cons₂, hb, hbad, h46, List.count_cons, hl]
      · by_cases h42 : c = 42
        · subst h42
          cases pattern with
          | false => simp [scan_spec, adj2_cons₂, hbad, List.count_cons]
          | true =>
            simp only [scan_spec, adj2_cons₂, List.all_cons, List.count_cons, if_true]
            have hc1 : (46 == (42:Nat)) = false := by decide
            have hc2 : (123 == (42:Nat)) = false := by decide
            simp [hbad, hc1, hc2, Nat.add_le_add_iff_right, Nat.le_zero]
        · have hb1 : ((46:Nat) == c) = false := by simp [Ne.symm h46]
          have hb2 : ((123:Nat) == c) = false := by simp [Ne.symm h123]
          simp [scan_spec, adj2_cons₂, hbad, hb1, hb2, h42, h46, h123, List.count_cons]

theorem component_scan_eq : ∀ (comp : List Nat) (pattern : Bool) (last : Nat),
    (∀ c ∈ comp, c ≠ 0 ∧ c ≠ 47) →
    component_scan pattern last comp = scan_spec pattern last comp
  | [], pattern, last, _ => by
    simp [component_scan, scan_spec, adj2_single]
  | c :: cs, pattern, last, h => by
    have hc := h c (List.mem_cons_self c cs)
    have hcs : ∀ x ∈ cs, x ≠ 0 ∧ x ≠ 47 := fun x hx => h x (List.mem_cons_of_mem _ hx)
    have h1 : ¬ (c = 0 ∨ c = 47) := by tauto
    rw [scan_spec_cons]
    by_cases h46 : c = 46
    · subst h46
      have hd : refname_disposition 46 = 2 := by decide
      simp only [component_scan, hd]
      norm_num
      by_cases hl : last = 46
      · simp [hl]
      · simp only [if_neg hl, component_scan_eq cs pattern 46 hcs]
        simp [hl, show ¬ ((46:Nat) = 42) from by decide, show bad_byte 46 = false from by decide]
    · by_cases h123 : c = 123
      · subst h123
        have hd : refname_disposition 123 = 3 := by decide
        simp only [component_scan, hd]
        norm_num
        by_cases hl : last = 64
        · simp [hl]
        · simp only [if_neg hl, component_scan_eq cs pattern 123 hcs]
          simp [hl, show ¬ ((123:Nat) = 42) from by decide, show bad_byte 123 = false from by decide]
      · by_cases h42 : c = 42
        · subst h42
          have hd : refname_disposition 42 = 5 := by decide
          simp only [component_scan, hd]
          norm_num
          cases pattern with
          | false => simp [show bad_byte 42 = false from by decide]
          | true =>
            simp only [if_true, component_scan_eq cs false 42 hcs]
            simp [show bad_byte 42 = false from by decide]
        · by_cases hbad : bad_byte c = true
          · have hd : refname_disposition c = 4 := by
              rw [disp_spec, if_neg h1, if_neg h46, if_neg h123, if_neg h42, if_pos hbad]
            simp only [component_scan, hd]
            norm_num [hbad]
          · have hd : refname_disposition c = 0 := by
              rw [disp_spec, if_neg h1, if_neg h46, if_neg h123, if_neg h42,
                if_neg (by simp [hbad] : ¬ bad_byte c = true)]
            simp only [component_scan, hd]
            norm_num
            rw [component_scan_eq cs pattern c hcs]
            simp [hbad, h42, h46, h123]

theorem adj2_cons_ne {a b x : Nat} (l : List Nat) (hx : x ≠ a) :
    adj2 a b (x :: l) = adj2 a b l := by
  cases l with
  | nil => simp [adj2]
  | cons y t =>
    rw [adj2_cons₂]
    have : (a == x) = false := by simp [Ne.symm hx]
    simp [this]

theorem check_refname_component_eq (comp : List Nat) (pattern : Bool)
    (h : ∀ c ∈ comp, c ≠ 0 ∧ c ≠ 47) :
    check_refname_component comp pattern =
      if spec_component_ok comp &&
          (if pattern then decide (comp.count 42 ≤ 1) else comp.count 42 == 0)
      then some (pattern && comp.count 42 == 0)
      else none := by
  unfold check_refname_component
  rw [component_scan_eq comp pattern 0 h]
  have e46 : adj2 46 46 (0 :: comp) = adj2 46 46 comp := adj2_cons_ne comp (by decide)
  have e64 : adj2 64 123 (0 :: comp) = adj2 64 123 comp := adj2_cons_ne comp (by decide)
  unfold scan_spec spec_component_ok
  rw [e46, e64, show dot_dot = [46,46] from rfl, show at_brace = [64,123] from rfl,
      sub_in_pair, sub_in_pair]
  have hlen : (comp.length = 0) ↔ (comp.isEmpty = true) := by
    cases comp <;> simp
  have hhead : (comp.head? = some 46) ↔ ((comp.head? == some 46) = true) := by
    simp
  simp only [hlen, hhead]
  generalize comp.all (fun c => !bad_byte c) = A
  generalize adj2 46 46 comp = X
  generalize adj2 64 123 comp = Y
  generalize decide (comp.count 42 ≤ 1) = s1
  generalize (comp.count 42 == 0) = s2
  generalize comp.isEmpty = E
  generalize (comp.head? == some 46) = H
  generalize lock_suffix.isSuffixOf comp = L
  revert A X Y s1 s2 E H L pattern
  decide

theorem tot_stars_cons (p : List Nat) (ps : List (List Nat)) :
    tot_stars (p :: ps) = p.count 42 + tot_stars ps := by
  simp [tot_stars]

theorem split_comp_ne_nil (r : List Nat) : split_comp r ≠ [] := by
  cases r with
  | nil => simp [split_comp]
  | cons c cs =>
    unfold split_comp
    by_cases h : c = 47
    · simp [h]
    · simp only [if_neg h]
      cases split_comp cs <;> simp

theorem split_comp_eq_sing_nil : ∀ r : List Nat, split_comp r = [[]] → r = [] := by
  intro r h
  cases r with
  | nil => rfl
  | cons c cs =>
    exfalso
    unfold split_comp at h
    by_cases hc : c = 47
    · rw [if_pos hc] at h
      simp only [List.cons.injEq] at h
      exact split_comp_ne_nil cs h.2
    · rw [if_neg hc] at h
      cases hs : split_comp cs with
      | nil => exact split_comp_ne_nil cs hs
      | cons p ps =>
        rw [hs] at h
        simp at h

theorem mem_split_comp : ∀ (r comp : List Nat), comp ∈ split_comp r →
    ∀ c ∈ comp, c ∈ r ∧ c ≠ 47 := by
  intro r
  induction r with
  | nil =>
    intro comp hc c hcc
    simp [split_comp] at hc
    subst hc
    simp at hcc
  | cons a as ih =>
    intro comp hc c hcc
    unfold split_comp at hc
    by_cases ha : a = 47
    · rw [if_pos ha] at hc
      rcases List.mem_cons.mp hc with h | h
      · subst h; simp at hcc
      · have := ih comp h c hcc
        exact ⟨List.mem_cons_of_mem _ this.1, this.2⟩
    · rw [if_neg ha] at hc
      cases hs : split_comp as with
      | nil => exact absurd hs (split_comp_ne_nil as)
      | cons p ps =>
        rw [hs] at hc
        rcases List.mem_cons.mp hc with h | h
        · subst h
          rcases List.mem_cons.mp hcc with h2 | h2
          · subst h2; exact ⟨List.mem_cons_self _ _, ha⟩
          · have := ih p (hs ▸ List.mem_cons_self p ps) c h2
            exact ⟨List.mem_cons_of_mem _ this.1, this.2⟩
        · have := ih comp (hs ▸ List.mem_cons_of_mem p h) c hcc
          exact ⟨List.mem_cons_of_mem _ this.1, this.2⟩

theorem tot_stars_split : ∀ r : List Nat, tot_stars (split_comp r) = r.count 42 := by
  intro r
  induction r with
  | nil => simp [split_comp, tot_stars]
  | cons a as ih =>
    unfold split_comp
    by_cases ha : a = 47
    · rw [if_pos ha, tot_stars_cons, ih]
      subst ha
      simp [List.count_cons]
    · rw [if_neg ha]
      cases hs : split_comp as with
      | nil => exact absurd hs (split_comp_ne_nil as)
      | cons p ps =>
        rw [hs] at ih
        rw [tot_stars_cons] at ih
        rw [tot_stars_cons]
        by_cases h42 : a = 42 <;> simp [h42, List.count_cons] <;> omega

theorem split_last_dot : ∀ r : List Nat,
    ((split_comp r).getLast?.bind (fun c => c.getLast?)) =
      if r.getLast? = some 47 then none else r.getLast? := by
  intro r
  induction r with
  | nil => simp [split_comp]
  | cons a as ih =>
    unfold split_comp
    by_cases ha : a = 47
    · rw [if_pos ha]
      cases as with
      | nil =>
        subst ha
        simp [split_comp]
      | cons b bs =>
        have h1 : (([] : List Nat) :: split_comp (b :: bs)).getLast? = (split_comp (b :: bs)).getLast? := by
          cases hs : split_comp (b :: bs) with
          | nil => exact absurd hs (split_comp_ne_nil _)
          | cons p ps => exact List.getLast?_cons_cons
        rw [h1, ih]
        rw [show (a :: b :: bs).getLast? = (b :: bs).getLast? from List.getLast?_cons_cons]
    · rw [if_neg ha]
      cases hs : split_comp as with
      | nil => exact absurd hs (split_comp_ne_nil as)
      | cons p ps =>
        rw [hs] at ih
        cases ps with
        | nil =>
          by_cases hp : p = []
          · subst hp
            have : as = [] := split_comp_eq_sing_nil as hs
            subst this
            simp [ha]
          · have ih' : p.getLast? = if as.getLast? = some 47 then none else as.getLast? := by
              simpa using ih
            have has : as ≠ [] := by
              intro h
              subst h
              simp [split_comp] at hs
              exact hp hs
            have e1 : (a :: p).getLast? = p.getLast? := by
              cases p with
              | nil => exact absurd rfl hp
              | cons q qs => exact List.getLast?_cons_cons
            have e2 : (a :: as).getLast? = as.getLast? := by
              cases as with
              | nil => exact absurd rfl has
              | cons q qs => exact List.getLast?_cons_cons
            have e3 : ([a :: p] : List (List Nat)).getLast?.bind (fun c => c.getLast?) = (a :: p).getLast? := by
              simp
            rw [e3, e1, ih', e2]
        | cons p2 pt =>
          have h1 : ((a :: p) :: p2 :: pt).getLast? = (p2 :: pt).getLast? := List.getLast?_cons_cons
          have h1b : (p :: p2 :: pt).getLast? = (p2 :: pt).getLast? := List.getLast?_cons_cons
          rw [h1, ← h1b, ih]
          have has : as ≠ [] := by
            intro h
            subst h
            simp [split_comp] at hs
          have e2 : (a :: as).getLast? = as.getLast? := by
            cases as with
            | nil => exact absurd rfl has
            | cons q qs => exact List.getLast?_cons_cons
          rw [e2]

theorem star_step (pattern : Bool) (c tr : Nat)
    (hs : (if pattern then decide (c ≤ 1) else c == 0) = true) :
    ((if pattern then c + tr ≤ 1 else c + tr = 0) ↔
      (if (pattern && c == 0) then tr ≤ 1 else tr = 0)) := by
  cases pattern <;> by_cases hc : c = 0
  all_goals simp_all
  all_goals omega

theorem format_go_iff : ∀ (comps : List (List Nat)) (pattern onelevel : Bool) (count : Nat),
    comps ≠ [] →
    (∀ comp ∈ comps, ∀ c ∈ comp, c ≠ 0 ∧ c ≠ 47) →
    (format_go onelevel comps pattern count = 0 ↔
      (comps.all spec_component_ok = true ∧
       (if pattern then tot_stars comps ≤ 1 else tot_stars comps = 0) ∧
       (comps.getLast?.bind (fun c => c.getLast?)) ≠ some 46 ∧
       (onelevel = true ∨ 2 ≤ count + comps.length)))
  | [], _, _, _, hne, _ => absurd rfl hne
  | comp :: rest, pattern, onelevel, count, _, h => by
    have hcomp : ∀ c ∈ comp, c ≠ 0 ∧ c ≠ 47 := h comp (List.mem_cons_self _ _)
    have hrest : ∀ x ∈ rest, ∀ c ∈ x, c ≠ 0 ∧ c ≠ 47 :=
      fun x hx => h x (List.mem_cons_of_mem _ hx)
    unfold format_go
    rw [check_refname_component_eq comp pattern hcomp]
    by_cases hC : (spec_component_ok comp &&
        (if pattern then decide (comp.count 42 ≤ 1) else comp.count 42 == 0)) = true
    · rw [if_pos hC]
      have hok : spec_component_ok comp = true := (Bool.and_eq_true _ _ ▸ hC).1
      have hstar : (if pattern then decide (comp.count 42 ≤ 1) else comp.count 42 == 0) = true :=
        (Bool.and_eq_true _ _ ▸ hC).2
      cases rest with
      | nil =>
        have htot : tot_stars [comp] = comp.count 42 := by simp [tot_stars]
        have hstars : (if pattern then tot_stars [comp] ≤ 1 else tot_stars [comp] = 0) := by
          rw [htot]
          cases pattern <;> simp_all
        have hall : ([comp].all spec_component_ok) = true := by simp [hok]
        have hget : (([comp] : List (List Nat)).getLast?.bind (fun c => c.getLast?)) = comp.getLast? := by
          simp
        constructor
        · intro hz
          by_cases hdot : comp.getLast? = some 46
          · rw [if_pos hdot] at hz; exact absurd hz (by decide : ¬ ((-1 : Int) = 0))
          · rw [if_neg hdot] at hz
            by_cases hlev : onelevel = false ∧ count + 1 < 2
            · rw [if_pos hlev] at hz; exact absurd hz (by decide : ¬ ((-1 : Int) = 0))
            · refine ⟨hall, hstars, by rw [hget]; exact hdot, ?_⟩
              rcases Bool.eq_false_or_eq_true onelevel with ho | ho
              · exact Or.inl ho
              · right
                rcases Nat.lt_or_ge (count + 1) 2 with hh | hh
                · exact absurd ⟨ho, hh⟩ hlev
                · simp only [List.length_cons, List.length_nil]; omega
        · rintro ⟨-, -, hdot, hlev⟩
          rw [hget] at hdot
          rw [if_neg hdot]
          have : ¬ (onelevel = false ∧ count + 1 < 2) := by
            rintro ⟨h1, h2⟩
            rcases hlev with h3 | h3
            · rw [h1] at h3; exact absurd h3 (by decide)
            · simp only [List.length_cons, List.length_nil] at h3; omega
          rw [if_neg this]
      | cons r2 rt =>
        rw [format_go_iff (r2 :: rt) (pattern && comp.count 42 == 0) onelevel (count + 1)
          (by simp) hrest]
        have hget : ((comp :: r2 :: rt).getLast?.bind (fun c => c.getLast?)) =
            ((r2 :: rt).getLast?.bind (fun c => c.getLast?)) := by
          rw [show (comp :: r2 :: rt).getLast? = (r2 :: rt).getLast? from List.getLast?_cons_cons]
        constructor
        · rintro ⟨ha, hst, hdot, hlev⟩
          refine ⟨?_, ?_, ?_, ?_⟩
          · simp [List.all_cons, hok, ha]
          · rw [tot_stars_cons]
            rw [star_step pattern (comp.count 42) (tot_stars (r2 :: rt)) hstar]
            exact hst
          · rw [hget]; exact hdot
          · rcases hlev with h1 | h1
            · exact Or.inl h1
            · right; simp only [List.length_cons] at h1 ⊢; omega
        · rintro ⟨ha, hst, hdot, hlev⟩
          have ha' : (r2 :: rt).all spec_component_ok = true := by
            simp only [List.all_cons, Bool.and_eq_true] at ha
            simp [List.all_cons, ha.2]
          refine ⟨ha', ?_, ?_, ?_⟩
          · rw [tot_stars_cons] at hst
            rw [← star_step pattern (comp.count 42) (tot_stars (r2 :: rt)) hstar]
            exact hst
          · rw [← hget]; exact hdot
          · rcases hlev with h1 | h1
            · exact Or.inl h1
            · right; simp only [List.length_cons] at h1 ⊢; omega
    · rw [if_neg hC]
      constructor
      · intro hz
        exact absurd hz (by decide : ¬ ((-1 : Int) = 0))
      · rintro ⟨ha, hst, -, -⟩
        exfalso
        apply hC
        have hok : spec_component_ok comp = true := by
          simp only [List.all_cons, Bool.and_eq_true] at ha
          exact ha.1
        rw [hok, Bool.true_and]
        rw [tot_stars_cons] at hst
        cases pattern with
        | false =>
          have : comp.count 42 = 0 := by
            simp only [Bool.false_eq_true, if_false] at hst
            omega
          simp [this]
        | true =>
          have : comp.count 42 ≤ 1 := by
            simp only [if_true] at hst
            omega
          simp [this]

theorem cbytes_eq_self : ∀ r : List Nat, (∀ b ∈ r, 0 < b ∧ b < 256) → cbytes r = r
  | [], _ => rfl
  | a :: as, h => by
    have ha := h a (List.mem_cons_self _ _)
    have ih := cbytes_eq_self as (fun b hb => h b (List.mem_cons_of_mem _ hb))
    unfold cbytes at ih ⊢
    simp only [List.map_cons]
    rw [Nat.mod_eq_of_lt ha.2, List.takeWhile_cons]
    simp only [decide_eq_true_eq]
    rw [if_pos (by omega : a ≠ 0), ih]

theorem check_refname_format_iff_spec (r : List Nat) (flags : Nat)
    (h : ∀ b ∈ r, 0 < b ∧ b < 256) :
    (check_refname_format r flags = 0) ↔ (spec_refname_ok_amended r flags = true) := by
  have hbytes : ∀ comp ∈ split_comp r, ∀ c ∈ comp, c ≠ 0 ∧ c ≠ 47 := by
    intro comp hc c hcc
    have hm := mem_split_comp r comp hc c hcc
    have := h c hm.1
    exact ⟨by omega, hm.2⟩
  unfold check_refname_format
  rw [cbytes_eq_self r h]
  by_cases h64 : r = [64]
  · rw [if_pos h64]
    constructor
    · intro hz; exact absurd hz (by decide : ¬ ((-1 : Int) = 0))
    · intro hs
      exfalso
      unfold spec_refname_ok_amended spec_refname_ok at hs
      rw [h64] at hs
      simp at hs
  · rw [if_neg h64]
    rw [format_go_iff (split_comp r) _ _ 0 (split_comp_ne_nil r) hbytes]
    unfold spec_refname_ok_amended spec_refname_ok
    rw [tot_stars_split, split_last_dot]
    have hB64 : (r == [64]) = false := by simp [h64]
    simp only [hB64, Bool.not_false, Bool.and_true, Bool.true_and,
      Bool.and_eq_true, Bool.or_eq_true, decide_eq_true_eq, beq_iff_eq,
      Bool.not_eq_true', beq_eq_false_iff_ne, ne_eq, bne_iff_ne]
    unfold star_count
    constructor
    · rintro ⟨hA, hS, hD, hL⟩
      refine ⟨⟨⟨hA, ?_⟩, ?_⟩, ?_⟩
      · rcases hL with h1 | h1
        · exact Or.inr h1
        · left; omega
      · by_cases hp : flags &&& REFNAME_REFSPEC_PATTERN = 0
        · rw [if_neg (by simp [hp])] at hS
          exact Or.inl hS
        · rw [if_pos hp] at hS
          by_cases hc : r.count 42 = 0
          · exact Or.inl hc
          · exact Or.inr ⟨hp, by omega⟩
      · by_cases hg : r.getLast? = some 47
        · rw [hg]; simp
        · rw [if_neg hg] at hD
          exact hD
    · rintro ⟨⟨⟨hA, hL⟩, hS⟩, hD⟩
      refine ⟨hA, ?_, ?_, ?_⟩
      · by_cases hp : flags &&& REFNAME_REFSPEC_PATTERN = 0
        · rw [if_neg (by simp [hp])]
          rcases hS with h1 | h1
          · exact h1
          · exact absurd h1.1 (by simp [hp])
        · rw [if_pos hp]
          rcases hS with h1 | h1 <;> omega
      · by_cases hg : r.getLast? = some 47
        · rw [if_pos hg]; simp
        · rw [if_neg hg]; exact hD
      · rcases hL with h1 | h1
        · right; omega
        · exact Or.inl h1

/-- C10: the empty ref name is classified as a pseudoref: `is_pseudoref_syntax`
accepts it, `ref_type` maps it to `REF_TYPE_PSEUDOREF`, and both `update_ref`
and `delete_ref` therefore take the pseudoref loose-file path, bypassing the
transaction engine and refname validation. -/
theorem empty_refname_is_pseudoref :
    is_pseudoref_syntax [] = true ∧ ref_type [] = .pseudoref ∧
    update_ref_route [] = .pseudorefFile ∧ delete_ref_route [] = .pseudorefFile := by
  decide

/-- C5 counterexample: the claim "check_refname_format accepts a name iff it
obeys the section-3 grammar" fails at the name "a/b.": the grammar as stated
accepts it (both components are fine), but the code rejects any refname whose
final byte is '.' (refs.c:170-171). -/
theorem check_refname_format_claim_cex :
    ¬ (check_refname_format (bytes "a/b.") 0 = 0 ↔
       spec_refname_ok (bytes "a/b.") 0 = true) := by
  decide

/-- C5 (amended): for every byte string, `check_refname_format` accepts it
iff it obeys the section-3 grammar amended with "the whole name does not end
with '.'": components non-empty, not starting with '.', free of "..", of
"@" + brace, of control characters, space, tab, ':', '?', '[', backslash,
'^', '~', not ending in ".lock"; the whole name is not "@", has at least two
components unless ALLOW_ONELEVEL, and has no '*' unless REFSPEC_PATTERN is
set, in which case at most one '*'. -/
theorem check_refname_format_iff_spec_amended (r : List Nat) (flags : Nat)
    (h : ∀ b ∈ r, 0 < b ∧ b < 256) :
    (check_refname_format r flags = 0) ↔ (spec_refname_ok_amended r flags = true) :=
  check_refname_format_iff_spec r flags h

/-- Witness for C5 (amended) at the concrete name "refs/heads/main". -/
theorem check_refname_format_iff_spec_amended_witness :
    (∀ b ∈ bytes "refs/heads/main", 0 < b ∧ b < 256) ∧
    (check_refname_format (bytes "refs/heads/main") 0 = 0 ↔
      spec_refname_ok_amended (bytes "refs/heads/main") 0 = true) :=
  ⟨by decide, check_refname_format_iff_spec_amended (bytes "refs/heads/main") 0 (by decide)⟩

theorem takeWhile_append_zero (n : List Nat) (h : ∀ c ∈ n, c ≠ 0) :
    ((n ++ [0]).takeWhile (fun c => c != 0)) = n := by
  induction n with
  | nil => simp [List.takeWhile_cons]
  | cons a as ih =>
    have ha := h a (List.mem_cons_self _ _)
    rw [List.cons_append, List.takeWhile_cons]
    simp only [bne_iff_ne, ne_eq, ha, not_false_eq_true, if_true, List.cons.injEq, true_and]
    exact ih (fun c hc => h c (List.mem_cons_of_mem _ hc))

theorem dropWhile_space_cons (n : List Nat) (h : ∀ c ∈ n, isspaceB c = false) :
    ((32 :: (n ++ [0])).dropWhile (fun c => isspaceB c)) = n ++ [0] := by
  rw [List.dropWhile_cons]
  simp only [show isspaceB 32 = true from rfl, if_pos]
  cases n with
  | nil => simp [List.dropWhile_cons, show isspaceB 0 = false from rfl]
  | cons a as =>
    rw [List.cons_append, List.dropWhile_cons]
    simp [h a (List.mem_cons_self _ _)]

theorem isPrefixOf_ref_colon (m : List Nat) :
    (bytes "ref:").isPrefixOf (symref_val m) = true := by
  show (bytes "ref:").isPrefixOf (bytes "ref: " ++ m ++ [0]) = true
  rw [show bytes "ref:" = [114, 101, 102, 58] from rfl,
    show bytes "ref: " = [114, 101, 102, 58, 32] from rfl]
  simp [List.isPrefixOf]

theorem symref_val_drop4 (m : List Nat) : (symref_val m).drop 4 = 32 :: (m ++ [0]) := by
  show (bytes "ref: " ++ m ++ [0]).drop 4 = _
  rw [show bytes "ref: " = [114, 101, 102, 58, 32] from rfl]
  simp

theorem parse_ref_data_chain (db : List Nat → Option (List Nat)) (idv id : List Nat)
    (hid : direct_value idv id = true) :
    ∀ (ns : List (List Nat)) (n0 : List Nat) (fuel flags rf : Nat),
      (∀ n ∈ n0 :: ns, good_name n = true) →
      chain_links db idv (n0 :: ns) = true →
      rf &&& RESOLVE_REF_NO_RECURSE = 0 →
      (ns.length < fuel →
        parse_ref_data db fuel n0 (chain_head_value idv ns) rf flags false =
          (some (ns.getLastD n0, id),
           flags ||| (if ns = [] then 0 else REF_ISSYMREF))) ∧
      (fuel ≤ ns.length →
        (parse_ref_data db fuel n0 (chain_head_value idv ns) rf flags false).1 = none) := by
  simp only [direct_value, Bool.and_eq_true, Bool.not_eq_true', beq_iff_eq,
    Bool.or_eq_true, beq_eq_false_iff_ne] at hid
  obtain ⟨⟨⟨hpre, hhex⟩, h40⟩, hnn⟩ := hid
  intro ns
  induction ns with
  | nil =>
    intro n0 fuel flags rf _ hchain _
    simp only [chain_links, beq_iff_eq] at hchain
    constructor
    · intro hlt
      obtain ⟨f, rfl⟩ : ∃ f, fuel = f + 1 := ⟨fuel - 1, by omega⟩
      simp only [chain_head_value, parse_ref_data]
      rw [if_pos (by simp [hpre]), hhex]
      have h40' : ¬ (idv.getD 40 0 ≠ 0 ∧ isspaceB (idv.getD 40 0) = false) := by
        rcases h40 with h | h
        · intro hc; exact hc.1 h
        · intro hc; rw [h] at hc; exact absurd hc.2 (by simp)
      have hnull : is_null_sha1 id = false := by simp [is_null_sha1, hnn]
      simp [hnull, Nat.or_zero]
      intro hne
      rcases h40 with h | h
      · exact absurd (by simpa [List.getD] using h) hne
      · simpa [List.getD] using h
    · intro hle
      have : fuel = 0 := by simpa using hle
      subst this
      rfl
  | cons n1 rest ih =>
    intro n0 fuel flags rf hgood hchain hrf
    simp only [chain_links, Bool.and_eq_true, beq_iff_eq] at hchain
    have hdb0 : db (n0 ++ [0]) = some (symref_val n1) := hchain.1
    have hrest : chain_links db idv (n1 :: rest) = true := hchain.2
    have hdb1 : db (n1 ++ [0]) = some (chain_head_value idv rest) := by
      cases rest with
      | nil => simpa [chain_links, chain_head_value, beq_iff_eq] using hrest
      | cons n2 t =>
        have := hrest
        simp only [chain_links, Bool.and_eq_true, beq_iff_eq] at this
        simpa [chain_head_value] using this.1
    have hg1 : good_name n1 = true := hgood n1 (by simp)
    simp only [good_name, Bool.and_eq_true, beq_iff_eq, List.all_eq_true] at hg1
    have hfmt : check_refname_format n1 REFNAME_ALLOW_ONELEVEL = 0 := hg1.1
    have hn1z : ∀ c ∈ n1, c ≠ 0 := by
      intro c hc
      have := hg1.2 c hc
      simp only [Bool.and_eq_true, decide_eq_true_eq, Bool.not_eq_true'] at this
      omega
    have hn1s : ∀ c ∈ n1, isspaceB c = false := by
      intro c hc
      have := hg1.2 c hc
      simp only [Bool.and_eq_true, decide_eq_true_eq, Bool.not_eq_true'] at this
      exact this.2
    have hgood' : ∀ n ∈ n1 :: rest, good_name n = true :=
      fun n hn => hgood n (List.mem_cons_of_mem _ hn)
    have hstep : ∀ f flags',
        parse_ref_data db (f + 1) n0 (chain_head_value idv (n1 :: rest)) rf flags' false =
          parse_ref_data db f n1 (chain_head_value idv rest) rf (flags' ||| REF_ISSYMREF) false := by
      intro f flags'
      simp only [chain_head_value, parse_ref_data]
      rw [if_neg (by simp [isPrefixOf_ref_colon])]
      simp only [symref_val_drop4, dropWhile_space_cons n1 hn1s, takeWhile_append_zero n1 hn1z]
      rw [if_neg (by simp [hrf])]
      simp only [hfmt]
      norm_num
      simp only [hdb1]
      rfl
    constructor
    · intro hlt
      obtain ⟨f, rfl⟩ : ∃ f, fuel = f + 1 := ⟨fuel - 1, by omega⟩
      rw [hstep f flags]
      rw [(ih n1 f (flags ||| REF_ISSYMREF) rf hgood' hrest hrf).1
        (by simp only [List.length_cons] at hlt; omega)]
      rw [List.getLastD_cons]

      cases rest with
      | nil => simp [Nat.or_zero]
      | cons n2 t =>
        simp only [List.cons_ne_nil, not_false_eq_true, reduceIte, if_neg]
        rw [Nat.or_assoc, Nat.or_self]
    · intro hle
      cases fuel with
      | zero => rfl
      | succ f =>
        rw [hstep f flags]
        exact (ih n1 f (flags ||| REF_ISSYMREF) rf hgood' hrest hrf).2
          (by simp only [List.length_cons] at hle; omega)

/-- C1 counterexample: in the store holding the five-hop symbolic chain
a -> b -> c -> d -> e -> f (with f direct), resolving "a" with the full
`MAXDEPTH` budget returns NULL, although the claim says chains of depth up
to 5 hops resolve; the four-hop resolution starting from "b" succeeds. -/
theorem parse_ref_data_five_hops_cex :
    (parse_ref_data five_hop_db MAXDEPTH (bytes "a") (symref_val (bytes "b")) 0 0 false).1 =
      none ∧
    parse_ref_data five_hop_db MAXDEPTH (bytes "b") (symref_val (bytes "c")) 0 0 false =
      (some (bytes "f", List.replicate 20 17), REF_ISSYMREF) := by
  decide

/-- C1 (amended): over any database and any well-formed symbolic-ref chain,
`parse_ref_data` with the `MAXDEPTH` (= 5) budget resolves a chain of at
most 4 symbolic hops to the terminal ref name and its id (accumulating
`REF_ISSYMREF` when at least one hop is taken), and returns NULL on every
chain of 5 or more hops. -/
theorem parse_ref_data_depth_bound (db : List Nat → Option (List Nat))
    (ns : List (List Nat)) (n0 : List Nat) (idv id : List Nat) (flags rf : Nat)
    (hid : direct_value idv id = true)
    (hgood : ∀ n ∈ n0 :: ns, good_name n = true)
    (hchain : chain_links db idv (n0 :: ns) = true)
    (hrf : rf &&& RESOLVE_REF_NO_RECURSE = 0) :
    (ns.length ≤ 4 →
      parse_ref_data db MAXDEPTH n0 (chain_head_value idv ns) rf flags false =
        (some (ns.getLastD n0, id),
         flags ||| (if ns = [] then 0 else REF_ISSYMREF))) ∧
    (5 ≤ ns.length →
      (parse_ref_data db MAXDEPTH n0 (chain_head_value idv ns) rf flags false).1 = none) := by
  have h := parse_ref_data_chain db idv id hid ns n0 MAXDEPTH flags rf hgood hchain hrf
  exact ⟨fun hle => h.1 (by unfold MAXDEPTH; omega),
         fun hge => h.2 (by unfold MAXDEPTH; omega)⟩

/-- Witness for C1 (amended) on the one-hop chain e -> f of the concrete
store. -/
theorem parse_ref_data_depth_bound_witness :
    (direct_value (sha1_to_hex (List.replicate 20 17) ++ [0]) (List.replicate 20 17) = true) ∧
    parse_ref_data five_hop_db MAXDEPTH (bytes "e")
        (chain_head_value (sha1_to_hex (List.replicate 20 17) ++ [0]) [bytes "f"]) 0 0 false =
      (some (([bytes "f"] : List (List Nat)).getLastD (bytes "e"), List.replicate 20 17),
       0 ||| (if ([bytes "f"] : List (List Nat)) = [] then 0 else REF_ISSYMREF)) :=
  ⟨by decide,
   (parse_ref_data_depth_bound five_hop_db [bytes "f"] (bytes "e")
      (sha1_to_hex (List.replicate 20 17) ++ [0]) (List.replicate 20 17) 0 0
      (by decide) (by decide) (by decide) (by decide)).1 (by decide)⟩

theorem keyLt_irrefl : ∀ k : List Nat, keyLt k k = false
  | [] => rfl
  | a :: as => by
    simp [keyLt, keyLt_irrefl as]

theorem keyLt_trans : ∀ {a b c : List Nat},
    keyLt a b = true → keyLt b c = true → keyLt a c = true
  | [], [], _, h, _ => by simp [keyLt] at h
  | [], _ :: _, [], _, h => by simp [keyLt] at h
  | [], _ :: _, _ :: _, _, _ => rfl
  | _ :: _, [], _, h, _ => by simp [keyLt] at h
  | _ :: _, _ :: _, [], _, h => by simp [keyLt] at h
  | a :: as, b :: bs, c :: cs, h1, h2 => by
    simp only [keyLt, Bool.or_eq_true, Bool.and_eq_true, decide_eq_true_eq, beq_iff_eq] at h1 h2 ⊢
    rcases h1 with h1 | ⟨rfl, h1⟩
    · rcases h2 with h2 | ⟨rfl, h2⟩
      · exact Or.inl (by omega)
      · exact Or.inl h1
    · rcases h2 with h2 | ⟨rfl, h2⟩
      · exact Or.inl h2
      · exact Or.inr ⟨rfl, keyLt_trans h1 h2⟩

theorem keyLt_conn : ∀ {a b : List Nat},
    keyLt a b = false → keyLt b a = false → a = b
  | [], [], _, _ => rfl
  | [], _ :: _, h, _ => by simp [keyLt] at h
  | _ :: _, [], _, h => by simp [keyLt] at h
  | a :: as, b :: bs, h1, h2 => by
    simp only [keyLt, Bool.or_eq_false_iff, Bool.and_eq_false_iff,
      decide_eq_false_iff_not, beq_eq_false_iff_ne, ne_eq] at h1 h2
    have hab : a = b := by omega
    subst hab
    rcases h1.2 with h | h
    · exact absurd rfl h
    · rcases h2.2 with h' | h'
      · exact absurd rfl h'
      · rw [keyLt_conn h h']

theorem keyLt_total (a b : List Nat) (hne : a ≠ b) :
    keyLt a b = true ∨ keyLt b a = true := by
  by_cases h1 : keyLt a b = true
  · exact Or.inl h1
  · by_cases h2 : keyLt b a = true
    · exact Or.inr h2
    · exact absurd (keyLt_conn (Bool.eq_false_iff.mpr h1) (Bool.eq_false_iff.mpr h2)) hne

theorem mdb_get_cons (e : List Nat × List Nat) (st : Store) (k : List Nat) :
    mdb_get (e :: st) k = if e.1 = k then some e.2 else mdb_get st k := by
  by_cases h : e.1 = k
  · simp [mdb_get, List.find?_cons_of_pos, h]
  · rw [if_neg h]
    simp only [mdb_get]
    rw [List.find?_cons_of_neg]
    simp [h]

theorem mdb_get_nil (k : List Nat) : mdb_get [] k = none := rfl

theorem mem_mdb_put : ∀ (st : Store) (k v : List Nat) (f : List Nat × List Nat),
    f ∈ mdb_put st k v → f = (k, v) ∨ f ∈ st
  | [], k, v, f, h => by simpa [mdb_put] using h
  | e :: rest, k, v, f, h => by
    simp only [mdb_put] at h
    by_cases h1 : keyLt k e.1 = true
    · rw [if_pos h1] at h
      rcases List.mem_cons.mp h with h2 | h2
      · exact Or.inl h2
      · exact Or.inr h2
    · rw [if_neg h1] at h
      by_cases h2 : k = e.1
      · rw [if_pos h2] at h
        rcases List.mem_cons.mp h with h3 | h3
        · exact Or.inl h3
        · exact Or.inr (List.mem_cons_of_mem _ h3)
      · rw [if_neg h2] at h
        rcases List.mem_cons.mp h with h3 | h3
        · exact Or.inr (by simp [h3])
        · rcases mem_mdb_put rest k v f h3 with h4 | h4
          · exact Or.inl h4
          · exact Or.inr (List.mem_cons_of_mem _ h4)

theorem mem_mdb_del : ∀ (st : Store) (k : List Nat) (f : List Nat × List Nat),
    f ∈ mdb_del st k → f ∈ st
  | [], _, _, h => by simp [mdb_del] at h
  | e :: rest, k, f, h => by
    simp only [mdb_del] at h
    by_cases h1 : e.1 = k
    · rw [if_pos h1] at h
      exact List.mem_cons_of_mem _ h
    · rw [if_neg h1] at h
      rcases List.mem_cons.mp h with h2 | h2
      · simp [h2]
      · exact List.mem_cons_of_mem _ (mem_mdb_del rest k f h2)

theorem mdb_get_put_self : ∀ (st : Store) (k v : List Nat),
    mdb_get (mdb_put st k v) k = some v
  | [], k, v => by simp [mdb_put, mdb_get_cons]
  | e :: rest, k, v => by
    simp only [mdb_put]
    by_cases h1 : keyLt k e.1 = true
    · rw [if_pos h1, mdb_get_cons]
      simp
    · rw [if_neg h1]
      by_cases h2 : k = e.1
      · rw [if_pos h2, mdb_get_cons]
        simp
      · rw [if_neg h2, mdb_get_cons, if_neg (fun he => h2 he.symm),
          mdb_get_put_self rest k v]

theorem mdb_get_put_ne (st : Store) (k v q : List Nat) (h : q ≠ k) :
    mdb_get (mdb_put st k v) q = mdb_get st q := by
  induction st with
  | nil =>
    rw [show mdb_put [] k v = [(k, v)] from rfl, mdb_get_cons]
    rw [if_neg (fun he => h he.symm)]
  | cons e rest ih =>
    simp only [mdb_put]
    by_cases h1 : keyLt k e.1 = true
    · rw [if_pos h1, mdb_get_cons, if_neg (fun he => h he.symm)]
    · rw [if_neg h1]
      by_cases h2 : k = e.1
      · rw [if_pos h2, mdb_get_cons, if_neg (fun he => h he.symm), mdb_get_cons,
          if_neg (fun he => h (by rw [← he, h2]))]
      · rw [if_neg h2, mdb_get_cons, mdb_get_cons, ih]

theorem mdb_get_del_ne (st : Store) (k q : List Nat) (h : q ≠ k) :
    mdb_get (mdb_del st k) q = mdb_get st q := by
  induction st with
  | nil => simp [mdb_del]
  | cons e rest ih =>
    simp only [mdb_del]
    by_cases h1 : e.1 = k
    · rw [if_pos h1, mdb_get_cons, if_neg (by rw [h1]; exact fun he => h he.symm)]
    · rw [if_neg h1, mdb_get_cons, mdb_get_cons, ih]

theorem mdb_get_none_of_all_lt (st : Store) (k : List Nat)
    (h : ∀ f ∈ st, keyLt k f.1 = true) : mdb_get st k = none := by
  induction st with
  | nil => rfl
  | cons e rest ih =>
    rw [mdb_get_cons, if_neg, ih (fun f hf => h f (List.mem_cons_of_mem _ hf))]
    intro he
    have := h e (List.mem_cons_self _ _)
    rw [he] at this
    rw [keyLt_irrefl] at this
    exact absurd this (by simp)

theorem mdb_get_del_self (st : Store) (k : List Nat) (hs : StoreSorted st) :
    mdb_get (mdb_del st k) k = none := by
  induction st with
  | nil => rfl
  | cons e rest ih =>
    have hp := (List.pairwise_cons.mp hs)
    simp only [mdb_del]
    by_cases h1 : e.1 = k
    · rw [if_pos h1]
      exact mdb_get_none_of_all_lt rest k (fun f hf => h1 ▸ hp.1 f hf)
    · rw [if_neg h1, mdb_get_cons, if_neg h1, ih hp.2]

theorem sorted_mdb_put (st : Store) (k v : List Nat) (hs : StoreSorted st) :
    StoreSorted (mdb_put st k v) := by
  induction st with
  | nil => simp [mdb_put, StoreSorted]
  | cons e rest ih =>
    have hp := (List.pairwise_cons.mp hs)
    simp only [mdb_put]
    by_cases h1 : keyLt k e.1 = true
    · rw [if_pos h1]
      refine List.pairwise_cons.mpr ⟨?_, hs⟩
      intro f hf
      rcases List.mem_cons.mp hf with h2 | h2
      · rw [h2]; exact h1
      · exact keyLt_trans h1 (hp.1 f h2)
    · rw [if_neg h1]
      by_cases h2 : k = e.1
      · rw [if_pos h2]
        refine List.pairwise_cons.mpr ⟨?_, hp.2⟩
        intro f hf
        rw [h2]
        exact hp.1 f hf
      · rw [if_neg h2]
        refine List.pairwise_cons.mpr ⟨?_, ih hp.2⟩
        intro f hf
        rcases mem_mdb_put rest k v f hf with h3 | h3
        · rw [h3]
          rcases keyLt_total k e.1 h2 with h4 | h4
          · exact absurd h4 h1
          · exact h4
        · exact hp.1 f h3

theorem sorted_mdb_del (st : Store) (k : List Nat) (hs : StoreSorted st) :
    StoreSorted (mdb_del st k) := by
  induction st with
  | nil => simp [mdb_del, StoreSorted]
  | cons e rest ih =>
    have hp := (List.pairwise_cons.mp hs)
    simp only [mdb_del]
    by_cases h1 : e.1 = k
    · rw [if_pos h1]; exact hp.2
    · rw [if_neg h1]
      refine List.pairwise_cons.mpr ⟨?_, ih hp.2⟩
      intro f hf
      exact hp.1 f (mem_mdb_del rest k f hf)

theorem mdb_get_some_mem : ∀ (st : Store) (k v : List Nat),
    mdb_get st k = some v → (k, v) ∈ st
  | [], k, v, h => by simp [mdb_get_nil] at h
  | e :: rest, k, v, h => by
    rw [mdb_get_cons] at h
    by_cases h1 : e.1 = k
    · rw [if_pos h1] at h
      have : e = (k, v) := by
        rcases e with ⟨ek, ev⟩
        simp at h1 h
        simp [h1, h]
      simp [← this]
    · rw [if_neg h1] at h
      exact List.mem_cons_of_mem _ (mdb_get_some_mem rest k v h)

theorem and_or_left_of_and_zero (a b c : Nat) (hb : b &&& c = 0) :
    (a ||| b) &&& c = a &&& c := by
  apply Nat.eq_of_testBit_eq
  intro i
  have hbi : (b.testBit i && c.testBit i) = false := by
    rw [← Nat.testBit_and, hb, Nat.zero_testBit]
  simp only [Nat.testBit_and, Nat.testBit_or]
  revert hbi
  cases a.testBit i <;> cases b.testBit i <;> cases c.testBit i <;> simp

theorem or_and_self_right (a b : Nat) : (a ||| b) &&& b = b := by
  apply Nat.eq_of_testBit_eq
  intro i
  simp only [Nat.testBit_and, Nat.testBit_or]
  cases a.testBit i <;> cases b.testBit i <;> simp

/-- C2: committing a transaction's partition is atomic: whenever the
backend commit reports an error (for example a compare-and-swap mismatch
on one of several updates), the visible store is unchanged — the failing
update makes `lmdb_transaction_commit` never run and the write transaction
is aborted, discarding its private view. -/
theorem lmdb_commit_updates_atomic (ctx : Ctx) (st : Store) (us : List UpdateReq)
    (h : (lmdb_commit_updates ctx st us).1 ≠ 0) :
    (lmdb_commit_updates ctx st us).2 = st := by
  cases hap : lmdb_apply_updates ctx st [] us with
  | ok t => simp [lmdb_commit_updates, hap] at h
  | error e => simp [lmdb_commit_updates, hap]

theorem lmdb_commit_updates_atomic_witness :
    (lmdb_commit_updates ex_ctx ex_store cas_updates).1 ≠ 0 ∧
    (lmdb_commit_updates ex_ctx ex_store cas_updates).2 = ex_store :=
  ⟨by decide, lmdb_commit_updates_atomic ex_ctx ex_store cas_updates (by decide)⟩

/-- C4: the reflog write path does NOT ensure the header key exists: for a
ref outside the autocreation classes (here refs/tags/v1) with no
pre-existing header, `log_ref_write` returns 0 and leaves the store
untouched — the logged update's reflog entry is silently dropped, and no
header is created. -/
theorem log_ref_write_silent_drop :
    log_ref_write ex_ctx ex_store (bytes "refs/tags/v1") ex_id1 ex_id2
        (some (bytes "retag")) = (0, ex_store)
      ∧ mdb_get ex_store (reflog_header_key (bytes "refs/tags/v1")) = none := by
  decide

/-- C8: `lmdb_reflog_exists` tests the found key against
`"logs/" + refname` WITHOUT the NUL sentinel, so a reflog existing only
for refs/heads/ab makes the query for refs/heads/a return true although
the store holds no key of the form `logs/refs/heads/a` + NUL + suffix. -/
theorem lmdb_reflog_exists_prefix_collision :
    lmdb_reflog_exists ex_logstore (bytes "refs/heads/a") = true
      ∧ ex_logstore.all
          (fun e => !((bytes "logs/refs/heads/a" ++ [0]).isPrefixOf e.1)) = true := by
  decide

/-- C9: a no-op update is frame-preserving.  When the new id `n` is
non-null and equals the id the ref currently resolves to, and the update
is not overwriting a symbolic ref under NODEREF, `lmdb_transaction_update`
leaves the whole transaction view unchanged (so neither the ref's value
nor any reflog key is written) and returns 0, only recording the refname
in the `updated_refs` map.  The side hypotheses are the conditions for the
update to proceed normally: a well-formed name, no earlier update of the
same ref, a successful `check_ref`, an object database that knows `n`,
the branch/commit compatibility check, and no caller-supplied DELETING
bit. -/
theorem lmdb_transaction_update_noop
    (ctx : Ctx) (st : Store) (seen : List (List Nat))
    (refname rname n : List Nat) (old_sha1 : Option (List Nat))
    (flags0 ty oty : Nat) (msg : Option (List Nat))
    (hnull : is_null_sha1 n = false)
    (hfmt : check_refname_format refname REFNAME_ALLOW_ONELEVEL = 0)
    (hseen : seen.contains refname = false)
    (hcheck : check_ref ctx st refname old_sha1
        (flags0 ||| REF_HAVE_NEW ||| (if old_sha1.isSome then REF_HAVE_OLD else 0))
        = some (rname, n, ty))
    (hover : ¬ (ty &&& REF_ISSYMREF ≠ 0 ∧
        (flags0 ||| REF_HAVE_NEW ||| (if old_sha1.isSome then REF_HAVE_OLD else 0))
          &&& REF_NODEREF ≠ 0))
    (hobj : ctx.objdb n = some oty)
    (hbranch : ¬ (oty ≠ OBJ_COMMIT ∧ is_branch
        (if (flags0 ||| REF_HAVE_NEW ||| (if old_sha1.isSome then REF_HAVE_OLD else 0))
            &&& REF_NODEREF ≠ 0 then refname else rname) = true))
    (hdel : flags0 &&& REF_DELETING = 0) :
    lmdb_transaction_update ctx st seen refname (some n) old_sha1 flags0 msg
      = (0, st, refname :: seen) := by
  have hne : ¬ (n = nullSha1) := by
    simpa [is_null_sha1] using hnull
  simp only [lmdb_transaction_update, Option.isSome_some, Option.some.injEq,
    hne, hfmt, hseen, Bool.false_eq_true, not_true_eq_false, ne_eq,
    not_false_eq_true, and_false, false_and, and_true, true_and,
    if_false, if_true, ite_false, ite_true, Nat.or_zero]
  rw [hcheck]
  have hover2 : ¬ (¬ ty &&& REF_ISSYMREF = 0 ∧
      ¬ ((flags0 ||| REF_HAVE_NEW |||
        (if old_sha1.isSome = true then REF_HAVE_OLD else 0)) &&& REF_NODEREF = 0)) := hover
  have hbranch2 : ¬ (¬ oty = OBJ_COMMIT ∧ is_branch
      (if ¬ ((flags0 ||| REF_HAVE_NEW |||
          (if old_sha1.isSome = true then REF_HAVE_OLD else 0)) &&& REF_NODEREF = 0)
        then refname else rname) = true) := hbranch
  have hite : (if old_sha1.isSome then REF_HAVE_OLD else 0) &&& REF_DELETING = 0 := by
    cases old_sha1
    · decide
    · show REF_HAVE_OLD &&& REF_DELETING = 0
      decide
  have hF8 : (flags0 ||| REF_HAVE_NEW |||
      (if old_sha1.isSome then REF_HAVE_OLD else 0)) &&& REF_DELETING = 0 := by
    rw [and_or_left_of_and_zero _ _ _ hite,
      and_or_left_of_and_zero _ _ _ (by decide : REF_HAVE_NEW &&& REF_DELETING = 0),
      hdel]
  have hFN8 : ((flags0 ||| REF_HAVE_NEW |||
      (if old_sha1.isSome then REF_HAVE_OLD else 0)) ||| REF_NO_REFLOG)
        &&& REF_DELETING = 0 := by
    rw [and_or_left_of_and_zero _ _ _
      (by decide : REF_NO_REFLOG &&& REF_DELETING = 0), hF8]
  have hFN : ((flags0 ||| REF_HAVE_NEW |||
      (if old_sha1.isSome then REF_HAVE_OLD else 0)) ||| REF_NO_REFLOG)
        &&& REF_NO_REFLOG = REF_NO_REFLOG := or_and_self_right _ _
  have hNZ : ¬ (REF_NO_REFLOG = 0) := by decide
  simp only [hnull, hobj, hover2, hbranch2, update_tail, hFN8, hFN, hNZ,
    ne_eq, not_false_eq_true, not_true_eq_false, and_false, false_and,
    and_true, true_and, Bool.false_eq_true, if_false, if_true, ite_true,
    ite_false, eq_self_iff_true]

theorem lmdb_transaction_update_noop_witness :
    lmdb_transaction_update ex_ctx ex_store [] (bytes "refs/heads/master")
      (some ex_id1) (some ex_id1) 0 (some (bytes "noop"))
      = (0, ex_store, [bytes "refs/heads/master"]) :=
  lmdb_transaction_update_noop ex_ctx ex_store [] (bytes "refs/heads/master")
    (bytes "refs/heads/master") ex_id1 (some ex_id1) 0 0 OBJ_COMMIT
    (some (bytes "noop")) (by decide) (by decide) (by decide) (by decide)
    (by decide) (by decide) (by decide) (by decide)

/-- C6 counterexample: a verify-style update of HEAD (old id given, no new
id, so flags = REF_HAVE_OLD) resolving through a symbolic ref.  The claim
predicts the appended update carries the same flags minus IS_NOT_HEAD,
i.e. REF_HAVE_OLD; the engine actually passes the embedded (never-NULL)
`new_sha1` array to `ref_transaction_update`, so the appended update also
gains REF_HAVE_NEW. -/
theorem dereference_symrefs_claim_cex :
    (match deref_one ex_resolve ex_verify_update with
     | .ok (_, some app) => app.flags
     | _ => 0) = REF_HAVE_OLD ||| REF_HAVE_NEW
    ∧ clearFlag ex_verify_update.flags REF_IS_NOT_HEAD = REF_HAVE_OLD
    ∧ REF_HAVE_OLD ||| REF_HAVE_NEW ≠ REF_HAVE_OLD := by
  decide

/-- C6 amended: for an update `u` that resolves through a symbolic ref
(type flags contain REF_ISSYMREF) and does not carry REF_NODEREF, when the
appended name passes validation, the `dereference_symrefs` step rewrites
`u` into a LOG_ONLY | NODEREF update with REF_HAVE_OLD cleared, stores the
resolved id into `read_sha1`, and appends an update for the resolved
underlying ref carrying the same new id, the same old id exactly when the
original had REF_HAVE_OLD, the original's flags (after the IS_NOT_HEAD
marking given to every non-HEAD update) minus REF_IS_NOT_HEAD plus
REF_HAVE_NEW — always, because the embedded new-id array is never NULL —
plus REF_HAVE_OLD when the original had it, and the same message. -/
theorem dereference_symrefs_amended
    (resolve : List Nat → Nat → (Option (List Nat × List Nat) × Nat))
    (u : RefUpdate) (resolved sha1 : List Nat) (ty : Nat)
    (hres : resolve u.refname
        ((if u.flags &&& REF_HAVE_OLD ≠ 0 ∧ is_null_sha1 u.old_sha1 = false
            then RESOLVE_REF_READING else 0) |||
         (if u.flags &&& REF_HAVE_NEW ≠ 0 ∧ is_null_sha1 u.new_sha1 = true
            then RESOLVE_REF_ALLOW_BAD_NAME ||| RESOLVE_REF_NO_RECURSE else 0))
        = (some (resolved, sha1), ty))
    (hnod : u.flags &&& REF_NODEREF = 0)
    (hsym : ty &&& REF_ISSYMREF ≠ 0)
    (hname : ¬ (u.new_sha1 ≠ nullSha1 ∧
        check_refname_format resolved REFNAME_ALLOW_ONELEVEL ≠ 0)) :
    deref_one resolve u = .ok
      ({ refname := u.refname
         new_sha1 := u.new_sha1
         old_sha1 := u.old_sha1
         flags := clearFlag
           ((if u.refname ≠ bytes "HEAD" then u.flags ||| REF_IS_NOT_HEAD
             else u.flags) ||| REF_LOG_ONLY ||| REF_NODEREF) REF_HAVE_OLD
         msg := u.msg
         type := ty
         read_sha1 := sha1 },
       some
       { refname := resolved
         new_sha1 := u.new_sha1
         old_sha1 := if u.flags &&& REF_HAVE_OLD ≠ 0 then u.old_sha1 else nullSha1
         flags := clearFlag
             (if u.refname ≠ bytes "HEAD" then u.flags ||| REF_IS_NOT_HEAD
              else u.flags) REF_IS_NOT_HEAD ||| REF_HAVE_NEW |||
           (if u.flags &&& REF_HAVE_OLD ≠ 0 then REF_HAVE_OLD else 0)
         msg := u.msg
         type := 0
         read_sha1 := nullSha1 }) := by
  have h4 : (if u.refname ≠ bytes "HEAD" then u.flags ||| REF_IS_NOT_HEAD
      else u.flags) &&& REF_HAVE_OLD = u.flags &&& REF_HAVE_OLD := by
    by_cases hh : u.refname = bytes "HEAD"
    · simp [hh]
    · simp only [hh, ne_eq, not_false_eq_true, if_true, ite_true,
        and_or_left_of_and_zero _ _ _
          (by decide : REF_IS_NOT_HEAD &&& REF_HAVE_OLD = 0)]
  have h1 : (if u.refname ≠ bytes "HEAD" then u.flags ||| REF_IS_NOT_HEAD
      else u.flags) &&& REF_NODEREF = 0 := by
    by_cases hh : u.refname = bytes "HEAD"
    · simpa [hh] using hnod
    · simp only [hh, ne_eq, not_false_eq_true, if_true, ite_true,
        and_or_left_of_and_zero _ _ _
          (by decide : REF_IS_NOT_HEAD &&& REF_NODEREF = 0)]
      exact hnod
  have hname2 : ¬ ((some u.new_sha1).isSome ∧ some u.new_sha1 ≠ some nullSha1 ∧
      check_refname_format resolved REFNAME_ALLOW_ONELEVEL ≠ 0) := by
    rintro ⟨-, h2, h3⟩
    exact hname ⟨fun he => h2 (by rw [he]), h3⟩
  have hname3 : ¬ (True ∧ ¬ (some u.new_sha1 = some nullSha1) ∧
      ¬ (check_refname_format resolved REFNAME_ALLOW_ONELEVEL = 0)) := by
    rintro ⟨-, h2, h3⟩
    exact hname ⟨fun he => h2 (by rw [he]), h3⟩
  simp only [deref_one, apply_ite RefUpdate.refname, apply_ite RefUpdate.new_sha1,
    apply_ite RefUpdate.old_sha1, apply_ite RefUpdate.flags,
    apply_ite RefUpdate.msg, apply_ite RefUpdate.type,
    apply_ite RefUpdate.read_sha1, ite_self, hres, ref_transaction_update_g,
    hname2, h1, h4, Option.isSome_some, hsym, hnod, ne_eq, not_false_eq_true,
    not_true_eq_false, or_self, if_false, if_true, ite_true, ite_false,
    false_or, List.nil_append, List.head?_cons, Option.getD_some, hname3]
  by_cases ho : u.flags &&& REF_HAVE_OLD = 0 <;> simp [ho]

theorem dereference_symrefs_amended_witness :
    deref_one ex_resolve ex_verify_update = .ok
      ({ refname := bytes "HEAD", new_sha1 := nullSha1, old_sha1 := ex_id1,
         flags := 17, msg := some (bytes "m"), type := 1, read_sha1 := ex_id1 },
       some { refname := bytes "refs/heads/master", new_sha1 := nullSha1,
              old_sha1 := ex_id1, flags := 6, msg := some (bytes "m"),
              type := 0, read_sha1 := nullSha1 }) :=
  dereference_symrefs_amended ex_resolve ex_verify_update
    (bytes "refs/heads/master") ex_id1 REF_ISSYMREF (by decide) (by decide)
    (by decide) (by decide)

/-- C3: committing with a non-files primary backend partitions the updates
(after symref dereferencing) by `ref_type` — Normal refs stay in the
primary partition, per-worktree and pseudoref updates move to the files
sub-transaction — and commits the primary partition first; when the files
partition then fails although the primary has already committed, the
engine emits the fixed split-transaction warning and returns the files
backend's error. -/
theorem do_ref_transaction_commit_split
    (resolve : List Nat → Nat → (Option (List Nat × List Nat) × Nat))
    (primary_commit files_commit : List RefUpdate → Int)
    (tx orig apps : List RefUpdate)
    (htx : tx ≠ [])
    (hderef : dereference_symrefs resolve tx = .ok (orig, apps))
    (hdupa : get_affected_refnames_dup
        ((orig ++ apps).filter
          (fun u => !(ref_type u.refname == RefType.normal))) = false)
    (hdupn : get_affected_refnames_dup
        ((orig ++ apps).filter
          (fun u => ref_type u.refname == RefType.normal)) = false)
    (hp : primary_commit
        ((orig ++ apps).filter
          (fun u => ref_type u.refname == RefType.normal)) = 0)
    (hf : files_commit
        ((orig ++ apps).filter
          (fun u => !(ref_type u.refname == RefType.normal))) ≠ 0) :
    do_ref_transaction_commit resolve false primary_commit files_commit tx
      = { result := files_commit
            ((orig ++ apps).filter
              (fun u => !(ref_type u.refname == RefType.normal)))
          warnings := [split_transaction_fail_warning] } := by
  simp only [do_ref_transaction_commit, htx, hderef, hdupa, hdupn, hp, hf,
    Bool.false_eq_true, if_false, ite_false, ite_true, ne_eq,
    not_false_eq_true, not_true_eq_false, if_true]

theorem do_ref_transaction_commit_split_witness :
    do_ref_transaction_commit ex_resolve false (fun _ => 0)
        (fun _ => TRANSACTION_GENERIC_ERROR) ex_commit_tx
      = { result := TRANSACTION_GENERIC_ERROR,
          warnings := [split_transaction_fail_warning] } :=
  do_ref_transaction_commit_split ex_resolve (fun _ => 0)
    (fun _ => TRANSACTION_GENERIC_ERROR) ex_commit_tx ex_commit_orig []
    (by decide) rfl (by decide) (by decide) rfl (by decide)

/-- C7 counterexample: renaming refs/heads/a (one reflog entry at
timestamp 1000) to refs/heads/b succeeds, but the reflog entries under b
are NOT exactly those formerly under a: besides the moved entry, the final
`lmdb_transaction_update` writes a brand-new entry recording the rename
itself, keyed by the rename's own timestamp (here be64 2000), a timestamp
at which a had no entry. -/
theorem lmdb_rename_ref_claim_cex :
    (lmdb_rename_ref ex_ctx ex_rename_store (bytes "refs/heads/a")
        (bytes "refs/heads/b") (some (bytes "rename"))).1 = 0
    ∧ mdb_get (lmdb_rename_ref ex_ctx ex_rename_store (bytes "refs/heads/a")
        (bytes "refs/heads/b") (some (bytes "rename"))).2
        (reflog_entry_key (bytes "refs/heads/b") (be64 2000))
      = some (format_reflog_entry nullSha1 ex_id1 ex_ctx.committer
          (some (bytes "rename")) ++ [0])
    ∧ mdb_get ex_rename_store
        (reflog_entry_key (bytes "refs/heads/a") (be64 2000)) = none := by
  decide

theorem nul_sep_inj : ∀ (x y s t : List Nat), ¬ 0 ∈ x → ¬ 0 ∈ y →
    x ++ 0 :: s = y ++ 0 :: t → x = y ∧ s = t
  | [], [], s, t, _, _, h => ⟨rfl, by simpa using h⟩
  | [], b :: bs, s, t, _, hy, h => by
    simp only [List.nil_append, List.cons_append, List.cons.injEq] at h
    exact absurd (by rw [← h.1]; exact List.mem_cons_self 0 bs) hy
  | a :: as, [], s, t, hx, _, h => by
    simp only [List.nil_append, List.cons_append, List.cons.injEq] at h
    exact absurd (by rw [h.1]; exact List.mem_cons_self 0 as) hx
  | a :: as, b :: bs, s, t, hx, hy, h => by
    simp only [List.cons_append, List.cons.injEq] at h
    obtain ⟨h3, h4⟩ := nul_sep_inj as bs s t
      (fun m => hx (List.mem_cons_of_mem a m))
      (fun m => hy (List.mem_cons_of_mem b m)) h.2
    exact ⟨by rw [h.1, h3], h4⟩

theorem zero_not_mem_logs (r : List Nat) (h : ¬ 0 ∈ r) :
    ¬ 0 ∈ bytes "logs/" ++ r := by
  intro hm
  rcases List.mem_append.1 hm with h1 | h1
  · exact absurd h1 (by decide)
  · exact h h1

theorem logs_sep_inj (x y s t : List Nat) (hx : ¬ 0 ∈ x) (hy : ¬ 0 ∈ y)
    (h : bytes "logs/" ++ (x ++ 0 :: s) = bytes "logs/" ++ (y ++ 0 :: t)) :
    x = y ∧ s = t := by
  rw [← List.append_assoc, ← List.append_assoc] at h
  obtain ⟨h1, h2⟩ := nul_sep_inj _ _ _ _ (zero_not_mem_logs x hx)
    (zero_not_mem_logs y hy) h
  exact ⟨List.append_cancel_left h1, h2⟩

theorem entry_key_eq_iff (r ts ts' : List Nat) (hr : ¬ 0 ∈ r) :
    reflog_entry_key r ts = reflog_entry_key r ts' ↔ ts = ts' := by
  constructor
  · intro h
    exact (logs_sep_inj r r ts ts' hr hr (by simpa [reflog_entry_key] using h)).2
  · intro h
    rw [h]

theorem entry_key_ne_of_ne (a b ts ts' : List Nat) (ha : ¬ 0 ∈ a)
    (hb : ¬ 0 ∈ b) (hne : a ≠ b) :
    reflog_entry_key a ts ≠ reflog_entry_key b ts' := by
  intro h
  exact hne (logs_sep_inj a b ts ts' ha hb
    (by simpa [reflog_entry_key] using h)).1

theorem sentinel_ne_entry_key (a r ts : List Nat) (ha : ¬ 0 ∈ a)
    (hr : ¬ 0 ∈ r) (hts : ts.length = 8) :
    bytes "logs/" ++ a ++ List.replicate 8 0 ≠ reflog_entry_key r ts := by
  intro h
  have h2 : bytes "logs/" ++ (a ++ 0 :: List.replicate 7 0)
      = bytes "logs/" ++ (r ++ 0 :: ts) := by
    simpa [reflog_entry_key, List.replicate_succ] using h
  have h3 := (logs_sep_inj a r _ _ ha hr h2).2
  rw [← h3] at hts
  simp at hts

theorem value_key_ne_entry_key (r x ts : List Nat) (hr : ¬ 0 ∈ r)
    (hx : ¬ 0 ∈ x) (hts : ts ≠ []) :
    r ++ [0] ≠ reflog_entry_key x ts := by
  intro h
  have h2 : r ++ 0 :: ([] : List Nat)
      = (bytes "logs/" ++ x) ++ 0 :: ts := by
    simpa [reflog_entry_key, List.append_assoc] using h
  exact hts (nul_sep_inj r (bytes "logs/" ++ x) [] ts hr
    (zero_not_mem_logs x hx) h2).2.symm

theorem value_key_ne_sentinel (r a : List Nat) (hr : ¬ 0 ∈ r)
    (ha : ¬ 0 ∈ a) :
    r ++ [0] ≠ bytes "logs/" ++ a ++ List.replicate 8 0 := by
  intro h
  have h2 : r ++ 0 :: ([] : List Nat)
      = (bytes "logs/" ++ a) ++ 0 :: List.replicate 7 0 := by
    simpa [List.replicate_succ, List.append_assoc] using h
  have := (nul_sep_inj r (bytes "logs/" ++ a) [] (List.replicate 7 0) hr
    (zero_not_mem_logs a ha) h2).2
  simp at this

theorem keyLt_asymm {a b : List Nat} (h : keyLt a b = true) :
    keyLt b a = false := by
  by_contra h2
  have h3 : keyLt b a = true := by
    revert h2
    cases keyLt b a <;> simp
  have := keyLt_trans h h3
  rw [keyLt_irrefl] at this
  exact Bool.false_ne_true this

theorem mdb_get_eq_none_of (st : Store) (k : List Nat)
    (h : ∀ v, (k, v) ∉ st) : mdb_get st k = none := by
  cases hg : mdb_get st k with
  | none => rfl
  | some v => exact absurd (mdb_get_some_mem st k v hg) (h v)

theorem mdb_put_idem : ∀ (st : Store) (k v : List Nat),
    StoreSorted st → mdb_get st k = some v → mdb_put st k v = st
  | [], k, v, _, hg => by simp [mdb_get_nil] at hg
  | e :: rest, k, v, hs, hg => by
    rw [mdb_get_cons] at hg
    by_cases he : e.1 = k
    · rw [if_pos he] at hg
      rw [mdb_put, if_neg, if_pos he.symm]
      · obtain rfl : e.2 = v := by injection hg
        rw [← he]
      · rw [he, keyLt_irrefl]
        simp
    · rw [if_neg he] at hg
      have hmem := mdb_get_some_mem rest k v hg
      have hlt : keyLt e.1 k = true :=
        (List.pairwise_cons.1 hs).1 (k, v) hmem
      rw [mdb_put, if_neg, if_neg (fun hh => he hh.symm),
        mdb_put_idem rest k v (List.pairwise_cons.1 hs).2 hg]
      rw [keyLt_asymm hlt]
      simp

theorem entry_key_drop (r ts : List Nat) (h : ts.length = 8) :
    (reflog_entry_key r ts).drop ((reflog_entry_key r ts).length - 8) = ts := by
  have h1 : reflog_entry_key r ts = (bytes "logs/" ++ r ++ [0]) ++ ts := by
    simp [reflog_entry_key]
  rw [h1, List.length_append, h, Nat.add_sub_cancel, List.drop_left]

theorem move_fold_eq (oldref newref : List Nat) :
    ∀ (ents : List (List Nat × List Nat)) (acc : Store),
    (∀ p ∈ ents, p.1.length = 8 ∧ p.1 ≠ List.replicate 8 0) →
    (∀ p ∈ ents, parse_reflog_line (p.2.take (p.2.length - 1)) = true) →
    (ents.map (fun p => (reflog_entry_key oldref p.1, p.2))).foldl
      (fun acc e =>
        if e.1.drop (e.1.length - 8) = List.replicate 8 0 then acc
        else if parse_reflog_line (e.2.take (e.2.length - 1)) = false then acc
        else mdb_del
          (mdb_put acc
            (bytes "logs/" ++ newref ++ [0] ++ e.1.drop (e.1.length - 8)) e.2)
          e.1) acc
    = ents.foldl (fun acc p =>
        mdb_del (mdb_put acc (reflog_entry_key newref p.1) p.2)
          (reflog_entry_key oldref p.1)) acc
  | [], _, _, _ => rfl
  | q :: rest, acc, hts, hparse => by
    have hq := hts q (List.mem_cons_self q rest)
    have hqp := hparse q (List.mem_cons_self q rest)
    simp only [List.map_cons, List.foldl_cons]
    rw [entry_key_drop oldref q.1 hq.1, if_neg hq.2,
      if_neg (by rw [hqp]; simp)]
    have hk : bytes "logs/" ++ newref ++ [0] ++ q.1
        = reflog_entry_key newref q.1 := rfl
    rw [hk]
    exact move_fold_eq oldref newref rest _
      (fun p hp => hts p (List.mem_cons_of_mem q hp))
      (fun p hp => hparse p (List.mem_cons_of_mem q hp))

theorem move_fold_sorted (oldref newref : List Nat) :
    ∀ (ents : List (List Nat × List Nat)) (acc : Store), StoreSorted acc →
    StoreSorted (ents.foldl (fun acc p =>
      mdb_del (mdb_put acc (reflog_entry_key newref p.1) p.2)
        (reflog_entry_key oldref p.1)) acc)
  | [], _, h => h
  | q :: rest, acc, h => by
    simp only [List.foldl_cons]
    exact move_fold_sorted oldref newref rest _
      (sorted_mdb_del _ _ (sorted_mdb_put _ _ _ h))

theorem move_fold_frame (oldref newref : List Nat) :
    ∀ (ents : List (List Nat × List Nat)) (acc : Store) (k : List Nat),
    (∀ p ∈ ents, k ≠ reflog_entry_key newref p.1 ∧
      k ≠ reflog_entry_key oldref p.1) →
    mdb_get (ents.foldl (fun acc p =>
      mdb_del (mdb_put acc (reflog_entry_key newref p.1) p.2)
        (reflog_entry_key oldref p.1)) acc) k = mdb_get acc k
  | [], _, _, _ => rfl
  | q :: rest, acc, k, h => by
    simp only [List.foldl_cons]
    rw [move_fold_frame oldref newref rest _ k
        (fun p hp => h p (List.mem_cons_of_mem q hp)),
      mdb_get_del_ne _ _ _ (h q (List.mem_cons_self q rest)).2,
      mdb_get_put_ne _ _ _ _ (h q (List.mem_cons_self q rest)).1]

theorem move_fold_get_new (oldref newref : List Nat) (ho : ¬ 0 ∈ oldref)
    (hn : ¬ 0 ∈ newref) (hne : oldref ≠ newref) :
    ∀ (ents : List (List Nat × List Nat)) (acc : Store)
      (p : List Nat × List Nat), p ∈ ents → (ents.map Prod.fst).Nodup →
    mdb_get (ents.foldl (fun acc p =>
      mdb_del (mdb_put acc (reflog_entry_key newref p.1) p.2)
        (reflog_entry_key oldref p.1)) acc) (reflog_entry_key newref p.1)
      = some p.2
  | q :: rest, acc, p, hp, hnd => by
    simp only [List.map_cons, List.nodup_cons] at hnd
    simp only [List.foldl_cons]
    rcases List.mem_cons.1 hp with rfl | hp2
    · rw [move_fold_frame oldref newref rest _ _ (fun r hr =>
        ⟨fun hEq => hnd.1 (by
            rw [(entry_key_eq_iff newref p.1 r.1 hn).1 hEq]
            exact List.mem_map_of_mem Prod.fst hr),
         entry_key_ne_of_ne newref oldref p.1 r.1 hn ho
           (fun hh => hne hh.symm)⟩),
        mdb_get_del_ne _ _ _ (entry_key_ne_of_ne newref oldref p.1 p.1 hn ho
          (fun hh => hne hh.symm)),
        mdb_get_put_self]
    · exact move_fold_get_new oldref newref ho hn hne rest _ p hp2 hnd.2

theorem move_fold_get_old (oldref newref : List Nat) (ho : ¬ 0 ∈ oldref)
    (hn : ¬ 0 ∈ newref) (hne : oldref ≠ newref) :
    ∀ (ents : List (List Nat × List Nat)) (acc : Store)
      (p : List Nat × List Nat), p ∈ ents → (ents.map Prod.fst).Nodup →
      StoreSorted acc →
    mdb_get (ents.foldl (fun acc p =>
      mdb_del (mdb_put acc (reflog_entry_key newref p.1) p.2)
        (reflog_entry_key oldref p.1)) acc) (reflog_entry_key oldref p.1)
      = none
  | q :: rest, acc, p, hp, hnd, hs => by
    simp only [List.map_cons, List.nodup_cons] at hnd
    simp only [List.foldl_cons]
    rcases List.mem_cons.1 hp with rfl | hp2
    · rw [move_fold_frame oldref newref rest _ _ (fun r hr =>
        ⟨entry_key_ne_of_ne oldref newref p.1 r.1 ho hn hne,
         fun hEq => hnd.1 (by
            rw [(entry_key_eq_iff oldref p.1 r.1 ho).1 hEq]
            exact List.mem_map_of_mem Prod.fst hr)⟩),
        mdb_get_del_self _ _ (sorted_mdb_put _ _ _ hs)]
    · exact move_fold_get_old oldref newref ho hn hne rest _ p hp2 hnd.2
        (sorted_mdb_del _ _ (sorted_mdb_put _ _ _ hs))

set_option maxHeartbeats 1000000 in
/-- C7 amended: after a successful `lmdb_rename_ref(a, b)` on a store in
which a has a reflog header and timestamped entries `ents` (well-formed:
8-byte non-zero timestamps, distinct, parsing values) and b is fresh, the
timestamped reflog entries stored under b are exactly those formerly under
a — same value bytes, same 8-byte timestamp key suffix — PLUS one new
entry keyed by the rename's own clock reading `be64(now)`, recording
null → orig with the rename message (the final `lmdb_transaction_update`
writes it through `log_ref_write`, since b's header exists); and no
timestamped entry remains under a (a's zero-timestamp header key does
survive, because the sentinel delete key lacks the NUL and misses it, but
it is a marker, not an entry).  The side hypotheses pin the normal-path
control flow and the store's well-formedness, each decidable on a concrete
store. -/
theorem lmdb_rename_ref_amended
    (ctx : Ctx) (st : Store) (oldref newref orig_sha1 : List Nat)
    (logmsg : Option (List Nat)) (ents : List (List Nat × List Nat))
    (hne : oldref ≠ newref)
    (ho : ¬ 0 ∈ oldref) (hn : ¬ 0 ∈ newref)
    (hsorted : StoreSorted st)
    (hexists : lmdb_reflog_exists st oldref = true)
    (hres : lmdb_resolve_ref_unsafe ctx st oldref RESOLVE_REF_READING
      = (some (oldref, orig_sha1), 0))
    (hnn : is_null_sha1 orig_sha1 = false)
    (havail : verify_refname_available_txn st newref none (some [oldref]) = false)
    (hauto : should_autocreate_reflog true newref = true)
    (hrun : reflog_ent_run (mdb_put st (reflog_header_key newref) []) oldref
      = ents.map (fun p => (reflog_entry_key oldref p.1, p.2)))
    (hts : ∀ p ∈ ents, p.1.length = 8 ∧ p.1 ≠ List.replicate 8 0)
    (hparse : ∀ p ∈ ents, parse_reflog_line (p.2.take (p.2.length - 1)) = true)
    (hnodup : (ents.map Prod.fst).Nodup)
    (haonly : st.filter
        (fun e => (bytes "logs/" ++ oldref ++ [0]).isPrefixOf e.1)
      = (reflog_header_key oldref, []) ::
          ents.map (fun p => (reflog_entry_key oldref p.1, p.2)))
    (hbfresh : st.all
      (fun e => !((bytes "logs/" ++ newref ++ [0]).isPrefixOf e.1)) = true)
    (hvfresh : mdb_get st (newref ++ [0]) = none)
    (hnf : newref ≠ bytes "FETCH_HEAD" ∧ newref ≠ bytes "MERGE_HEAD")
    (hfmt : check_refname_format newref REFNAME_ALLOW_ONELEVEL = 0)
    (hver4 : verify_refname_available_txn
      (mdb_del (rename_move_entries (mdb_put st (reflog_header_key newref) [])
        oldref newref) (bytes "logs/" ++ oldref ++ List.replicate 8 0))
      newref none none = false)
    (hobj : ctx.objdb orig_sha1 = some OBJ_COMMIT) :
    (lmdb_rename_ref ctx st oldref newref logmsg).1 = 0
    ∧ ∀ ts : List Nat, ts.length = 8 → ts ≠ List.replicate 8 0 →
      (mdb_get (lmdb_rename_ref ctx st oldref newref logmsg).2
          (reflog_entry_key newref ts)
        = if ts = be64 ctx.now
          then some (format_reflog_entry nullSha1 orig_sha1 ctx.committer
            logmsg ++ [0])
          else ((ents.find? (fun p => p.1 == ts)).map (fun p => p.2)))
      ∧ mdb_get (lmdb_rename_ref ctx st oldref newref logmsg).2
          (reflog_entry_key oldref ts) = none := by
  have hts_nil : ∀ p ∈ ents, p.1 ≠ ([] : List Nat) := by
    intro p hp he
    have := (hts p hp).1
    rw [he] at this
    simp at this
  have hrep_nil : (List.replicate 8 0 : List Nat) ≠ [] := by decide
  have hch : lmdb_create_reflog true st newref false
      = mdb_put st (reflog_header_key newref) [] := by
    simp [lmdb_create_reflog, hauto]
  have hhk : reflog_header_key newref
      = reflog_entry_key newref (List.replicate 8 0) := rfl
  have hmove : rename_move_entries (mdb_put st (reflog_header_key newref) [])
        oldref newref
      = ents.foldl (fun acc p =>
          mdb_del (mdb_put acc (reflog_entry_key newref p.1) p.2)
            (reflog_entry_key oldref p.1))
        (mdb_put st (reflog_header_key newref) []) := by
    unfold rename_move_entries
    rw [hrun]
    exact move_fold_eq oldref newref ents _ hts hparse
  have hsth_sorted : StoreSorted (mdb_put st (reflog_header_key newref) []) :=
    sorted_mdb_put _ _ _ hsorted
  have hstm_sorted : StoreSorted (rename_move_entries
      (mdb_put st (reflog_header_key newref) []) oldref newref) := by
    rw [hmove]
    exact move_fold_sorted oldref newref ents _ hsth_sorted
  have hst4_sorted : StoreSorted
      (mdb_del (rename_move_entries (mdb_put st (reflog_header_key newref) [])
        oldref newref) (bytes "logs/" ++ oldref ++ List.replicate 8 0)) :=
    sorted_mdb_del _ _ hstm_sorted
  have hget4 : mdb_get
      (mdb_del (rename_move_entries (mdb_put st (reflog_header_key newref) [])
        oldref newref) (bytes "logs/" ++ oldref ++ List.replicate 8 0))
      (newref ++ [0]) = none := by
    rw [mdb_get_del_ne _ _ _ (value_key_ne_sentinel newref oldref hn ho), hmove,
      move_fold_frame oldref newref ents _ _ (fun p hp =>
        ⟨value_key_ne_entry_key newref newref p.1 hn hn (hts_nil p hp),
         value_key_ne_entry_key newref oldref p.1 hn ho (hts_nil p hp)⟩),
      hhk,
      mdb_get_put_ne _ _ _ _
        (value_key_ne_entry_key newref newref (List.replicate 8 0) hn hn
          hrep_nil)]
    exact hvfresh
  have hresolve4 : resolve_ref_unsafe_txn
      (mdb_del (rename_move_entries (mdb_put st (reflog_header_key newref) [])
        oldref newref) (bytes "logs/" ++ oldref ++ List.replicate 8 0))
      newref 0 = (some (newref, nullSha1), 0) := by
    unfold resolve_ref_unsafe_txn
    rw [hget4]
    simp only [hfmt, hver4, ne_eq, not_true_eq_false, not_false_eq_true,
      false_and, and_false, true_and, and_true, if_false, if_true, ite_true,
      ite_false, Bool.false_eq_true,
      (by decide : (0 : Nat) &&& RESOLVE_REF_READING = 0), reduceIte]
  have hchk : check_ref ctx
      (mdb_del (rename_move_entries (mdb_put st (reflog_header_key newref) [])
        oldref newref) (bytes "logs/" ++ oldref ++ List.replicate 8 0))
      newref none REF_HAVE_NEW = some (newref, nullSha1, 0) := by
    unfold check_ref lmdb_resolve_ref_unsafe
    simp only [Option.isSome_none, Bool.false_eq_true, false_and, if_false,
      ite_false, hnf.1, hnf.2, or_self,
      (by decide : REF_HAVE_NEW &&& REF_DELETING = 0), ne_eq,
      not_true_eq_false, reduceIte, not_false_eq_true]
    rw [hresolve4]
  have hh5 : mdb_get
      (mdb_put
        (mdb_del (rename_move_entries (mdb_put st (reflog_header_key newref) [])
          oldref newref) (bytes "logs/" ++ oldref ++ List.replicate 8 0))
        (newref ++ [0]) (sha1_to_hex orig_sha1 ++ [0]))
      (reflog_header_key newref) = some [] := by
    rw [mdb_get_put_ne _ _ _ _
        (show reflog_header_key newref ≠ newref ++ [0] from Ne.symm
          (value_key_ne_entry_key newref newref (List.replicate 8 0) hn hn
            hrep_nil)),
      mdb_get_del_ne _ _ _
        (show reflog_header_key newref
            ≠ bytes "logs/" ++ oldref ++ List.replicate 8 0 from Ne.symm
          (sentinel_ne_entry_key oldref newref (List.replicate 8 0) ho hn
            (by decide))),
      hmove,
      move_fold_frame oldref newref ents _ (reflog_header_key newref)
        (fun p hp =>
        ⟨fun hEq => (hts p hp).2
            ((entry_key_eq_iff newref (List.replicate 8 0) p.1 hn).1 hEq).symm,
         show reflog_header_key newref ≠ reflog_entry_key oldref p.1 from
           entry_key_ne_of_ne newref oldref (List.replicate 8 0) p.1 hn ho
             (fun hh => hne hh.symm)⟩),
      mdb_get_put_self]
  have hsorted5 : StoreSorted
      (mdb_put
        (mdb_del (rename_move_entries (mdb_put st (reflog_header_key newref) [])
          oldref newref) (bytes "logs/" ++ oldref ++ List.replicate 8 0))
        (newref ++ [0]) (sha1_to_hex orig_sha1 ++ [0])) :=
    sorted_mdb_put _ _ _ hst4_sorted
  have hlog5 : log_ref_write ctx
      (mdb_put
        (mdb_del (rename_move_entries (mdb_put st (reflog_header_key newref) [])
          oldref newref) (bytes "logs/" ++ oldref ++ List.replicate 8 0))
        (newref ++ [0]) (sha1_to_hex orig_sha1 ++ [0]))
      newref nullSha1 orig_sha1 logmsg
    = (0, mdb_put
        (mdb_put
          (mdb_del (rename_move_entries
            (mdb_put st (reflog_header_key newref) []) oldref newref)
            (bytes "logs/" ++ oldref ++ List.replicate 8 0))
          (newref ++ [0]) (sha1_to_hex orig_sha1 ++ [0]))
        (reflog_entry_key newref (be64 ctx.now))
        (format_reflog_entry nullSha1 orig_sha1 ctx.committer logmsg ++ [0])) := by
    have hcr : lmdb_create_reflog ctx.log_all_ref_updates
        (mdb_put
          (mdb_del (rename_move_entries
            (mdb_put st (reflog_header_key newref) []) oldref newref)
            (bytes "logs/" ++ oldref ++ List.replicate 8 0))
          (newref ++ [0]) (sha1_to_hex orig_sha1 ++ [0]))
        newref false = mdb_put
          (mdb_del (rename_move_entries
            (mdb_put st (reflog_header_key newref) []) oldref newref)
            (bytes "logs/" ++ oldref ++ List.replicate 8 0))
          (newref ++ [0]) (sha1_to_hex orig_sha1 ++ [0]) := by
      unfold lmdb_create_reflog
      split
      · rfl
      · exact mdb_put_idem _ _ _ hsorted5 hh5
    unfold log_ref_write
    rw [hcr]
    simp only [hh5]
  have horig : ¬ (orig_sha1 = nullSha1) := by simpa [is_null_sha1] using hnn
  have hnullo : ¬ ((nullSha1 : List Nat) = orig_sha1) := fun h => horig h.symm
  have hupdate : lmdb_transaction_update ctx
      (mdb_del (rename_move_entries (mdb_put st (reflog_header_key newref) [])
        oldref newref) (bytes "logs/" ++ oldref ++ List.replicate 8 0))
      [] newref (some orig_sha1) none 0 logmsg
    = (0, mdb_put
        (mdb_put
          (mdb_del (rename_move_entries
            (mdb_put st (reflog_header_key newref) []) oldref newref)
            (bytes "logs/" ++ oldref ++ List.replicate 8 0))
          (newref ++ [0]) (sha1_to_hex orig_sha1 ++ [0]))
        (reflog_entry_key newref (be64 ctx.now))
        (format_reflog_entry nullSha1 orig_sha1 ctx.committer logmsg ++ [0]),
      [newref]) := by
    simp only [lmdb_transaction_update, update_tail, update_logs,
      Option.isSome_some, Option.isSome_none, Option.some.injEq, horig,
      hnullo, hfmt, hnn, hchk, hver4, hobj, hlog5, ne_eq, not_false_eq_true,
      not_true_eq_false, and_false, false_and, and_true, true_and, if_false,
      if_true, ite_true, ite_false, Bool.false_eq_true, Nat.or_zero,
      Nat.zero_or, lt_irrefl, Option.getD_some,
      (show ([] : List (List Nat)).contains newref = false from rfl),
      (by decide : REF_HAVE_NEW &&& REF_DELETING = 0),
      (by decide : REF_HAVE_NEW &&& REF_NODEREF = 0),
      (by decide : REF_HAVE_NEW &&& REF_NO_REFLOG = 0),
      (by decide : is_null_sha1 nullSha1 = true)]
  have hrename : lmdb_rename_ref ctx st oldref newref logmsg
    = (0, mdb_put
        (mdb_put
          (mdb_del (rename_move_entries
            (mdb_put st (reflog_header_key newref) []) oldref newref)
            (bytes "logs/" ++ oldref ++ List.replicate 8 0))
          (newref ++ [0]) (sha1_to_hex orig_sha1 ++ [0]))
        (reflog_entry_key newref (be64 ctx.now))
        (format_reflog_entry nullSha1 orig_sha1 ctx.committer logmsg ++ [0])) := by
    simp only [lmdb_rename_ref, hne, hexists, hres, havail, hch, hupdate,
      ne_eq, not_false_eq_true, not_true_eq_false, and_false, false_and,
      and_true, true_and, if_false, if_true, ite_true, ite_false,
      Bool.false_eq_true,
      (by decide : (0 : Nat) &&& REF_ISSYMREF = 0)]
  refine ⟨by rw [hrename], ?_⟩
  intro ts hlen hts0
  have hts_ne_nil : ts ≠ ([] : List Nat) := by
    intro he
    rw [he] at hlen
    simp at hlen
  rw [hrename]
  constructor
  · by_cases hnow : ts = be64 ctx.now
    · rw [if_pos hnow, hnow, mdb_get_put_self]
    · rw [if_neg hnow,
        mdb_get_put_ne _ _ _ _ (fun h => hnow
          ((entry_key_eq_iff newref ts (be64 ctx.now) hn).1 h)),
        mdb_get_put_ne _ _ _ _ (Ne.symm
          (value_key_ne_entry_key newref newref ts hn hn hts_ne_nil)),
        mdb_get_del_ne _ _ _ (Ne.symm
          (sentinel_ne_entry_key oldref newref ts ho hn hlen)),
        hmove]
      cases hfind : ents.find? (fun p => p.1 == ts) with
      | some p =>
        have hpmem : p ∈ ents := List.mem_of_find?_eq_some hfind
        have hpts : p.1 = ts := by
          have := List.find?_some hfind
          simpa using this
        rw [← hpts,
          move_fold_get_new oldref newref ho hn hne ents _ p hpmem hnodup]
        simp
      | none =>
        have hnall : ∀ p ∈ ents, ¬ (p.1 = ts) := by
          intro p hp
          have := List.find?_eq_none.1 hfind p hp
          simpa using this
        rw [move_fold_frame oldref newref ents _ (reflog_entry_key newref ts)
            (fun p hp =>
              ⟨fun h => hnall p hp
                  ((entry_key_eq_iff newref ts p.1 hn).1 h).symm,
               entry_key_ne_of_ne newref oldref ts p.1 hn ho
                 (fun hh => hne hh.symm)⟩),
          mdb_get_put_ne _ _ _ _ (show reflog_entry_key newref ts
              ≠ reflog_header_key newref from fun h =>
            hts0 ((entry_key_eq_iff newref ts (List.replicate 8 0) hn).1 h))]
        have hnone : mdb_get st (reflog_entry_key newref ts) = none := by
          apply mdb_get_eq_none_of
          intro v hv
          have hall := List.all_eq_true.1 hbfresh _ hv
          simp only [Bool.not_eq_true'] at hall
          have hpre : (bytes "logs/" ++ newref ++ [0]).isPrefixOf
              (reflog_entry_key newref ts) = true := by
            rw [List.isPrefixOf_iff_prefix]
            exact ⟨ts, by simp [reflog_entry_key]⟩
          rw [hall] at hpre
          exact Bool.false_ne_true hpre
        rw [hnone]
        simp
  · rw [mdb_get_put_ne _ _ _ _
        (entry_key_ne_of_ne oldref newref ts (be64 ctx.now) ho hn hne),
      mdb_get_put_ne _ _ _ _ (Ne.symm
        (value_key_ne_entry_key newref oldref ts hn ho hts_ne_nil)),
      mdb_get_del_ne _ _ _ (Ne.symm
        (sentinel_ne_entry_key oldref oldref ts ho ho hlen)),
      hmove]
    by_cases hmem : ∃ p ∈ ents, p.1 = ts
    · obtain ⟨p, hp, hpts⟩ := hmem
      rw [← hpts,
        move_fold_get_old oldref newref ho hn hne ents _ p hp hnodup
          hsth_sorted]
    · push_neg at hmem
      rw [move_fold_frame oldref newref ents _ (reflog_entry_key oldref ts)
          (fun p hp =>
            ⟨entry_key_ne_of_ne oldref newref ts p.1 ho hn hne,
             fun h => hmem p hp ((entry_key_eq_iff oldref ts p.1 ho).1 h).symm⟩),
        mdb_get_put_ne _ _ _ _ (show reflog_entry_key oldref ts
            ≠ reflog_header_key newref from
          entry_key_ne_of_ne oldref newref ts (List.replicate 8 0) ho hn hne)]
      apply mdb_get_eq_none_of
      intro v hv
      have hpre : (bytes "logs/" ++ oldref ++ [0]).isPrefixOf
          (reflog_entry_key oldref ts) = true := by
        rw [List.isPrefixOf_iff_prefix]
        exact ⟨ts, by simp [reflog_entry_key]⟩
      have hmemf : (reflog_entry_key oldref ts, v) ∈ st.filter
          (fun e => (bytes "logs/" ++ oldref ++ [0]).isPrefixOf e.1) :=
        List.mem_filter.2 ⟨hv, hpre⟩
      rw [haonly] at hmemf
      rcases List.mem_cons.1 hmemf with heq | hmap
      · have hk : reflog_entry_key oldref ts = reflog_header_key oldref :=
          congrArg Prod.fst heq
        exact hts0 ((entry_key_eq_iff oldref ts (List.replicate 8 0) ho).1 hk)
      · obtain ⟨p, hp, hpe⟩ := List.mem_map.1 hmap
        have hk : reflog_entry_key oldref p.1 = reflog_entry_key oldref ts :=
          congrArg Prod.fst hpe
        exact hmem p hp ((entry_key_eq_iff oldref p.1 ts ho).1 hk)

theorem lmdb_rename_ref_amended_witness :
    (lmdb_rename_ref ex_ctx ex_rename_store (bytes "refs/heads/a")
        (bytes "refs/heads/b") (some (bytes "rename"))).1 = 0
    ∧ ∀ ts : List Nat, ts.length = 8 → ts ≠ List.replicate 8 0 →
      (mdb_get (lmdb_rename_ref ex_ctx ex_rename_store (bytes "refs/heads/a")
          (bytes "refs/heads/b") (some (bytes "rename"))).2
          (reflog_entry_key (bytes "refs/heads/b") ts)
        = if ts = be64 ex_ctx.now
          then some (format_reflog_entry nullSha1 ex_id1 ex_ctx.committer
            (some (bytes "rename")) ++ [0])
          else (([((be64 1000 : List Nat), ex_entry1 ++ [0])].find?
            (fun p => p.1 == ts)).map (fun p => p.2)))
      ∧ mdb_get (lmdb_rename_ref ex_ctx ex_rename_store (bytes "refs/heads/a")
          (bytes "refs/heads/b") (some (bytes "rename"))).2
          (reflog_entry_key (bytes "refs/heads/a") ts) = none :=
  lmdb_rename_ref_amended ex_ctx ex_rename_store (bytes "refs/heads/a")
    (bytes "refs/heads/b") ex_id1 (some (bytes "rename"))
    [(be64 1000, ex_entry1 ++ [0])]
    (by decide) (by decide) (by decide) (by unfold StoreSorted; decide)
    (by decide) (by decide)
    (by decide) (by decide) (by decide) (by decide) (by decide) (by decide)
    (by decide) (by decide) (by decide) (by decide) (by decide) (by decide)
    (by decide) (by decide)

end GitRefs
